import Mathlib

/-!
# Verification of the meqa schema engine, object store, and test-plan DSL

A shallow embedding of the core of the `swagger_meqa` repository:

* `meqa/mqswag/db.go` — the schema engine (`SchemaRef.GetProperties`,
  `SchemaRef.Parses`, `SchemaRef.Matches`, `SchemaRef.Iterate`, `Validate`)
  and the in-memory object store (`DBEntry`, `SchemaDB`, `DB`).
* `mqgo/src/meqa/mqplan/dsl.go` — the value generator
  (`generateParameter` and friends) and the test-plan engine
  (`Test`, `TestPlan`, `ResolveParameters`, `Add`, `InitFromFile`).

Modelling conventions used throughout:

* Decoded JSON values are the inductive `JsonValue`.  Go's `float64` is
  modelled by `Rat` (no claim below depends on floating-point rounding);
  Go's `int64` by `Int`.  A `json.Number` (a named string type in Go whose
  reflect kind is `String`) is the separate constructor `vnumstr`.
* Go maps (`map[string]T`) are association lists `List (String × T)` with
  unique keys maintained by `mapSet`.  Go map iteration order is
  nondeterministic; the list order fixes one order, and no theorem below
  depends on it in a way the Go program does not.
* Go runtime panics (failed type assertions, `panic(...)`, `rand.Intn(0)`,
  nil dereference) are modelled by the distinguished error constructor
  `GoErr.panicked`.  A panic is a crash, not an error value returned to the
  caller; keeping it in the `Except` error channel merely makes the
  functions total, and theorems distinguish it from returned errors.
* External collaborators (the `regexp` engine, the `reggen` random-string
  generator, `time` formatting, base64/hex encoders) are injected as
  explicit function arguments, mirroring the spec's treatment of them as
  black boxes.
* Randomness (`rand.Intn`, `rand.Float64`) is an explicit stream of draws
  (`RStream`) threaded through the generator.
-/

set_option autoImplicit false

/-- A decoded JSON value as it appears in the Go code's `interface{}`. -/
inductive JsonValue : Type where
  | vnull : JsonValue
  | vbool (b : Bool) : JsonValue
  | vint (n : Int) : JsonValue
  | vnum (q : Rat) : JsonValue
  | vstr (s : String) : JsonValue
  | vnumstr (s : String) : JsonValue
  | vobj (fields : List (String × JsonValue)) : JsonValue
  | varr (items : List JsonValue) : JsonValue

/-- A decoded JSON object, i.e. the payload of `map[string]interface{}`. -/
abbrev JsonMap := List (String × JsonValue)

/-- Go map read `m[k]`: the value stored under the first occurrence of `k`. -/
def lookupKey {α : Type} : List (String × α) → String → Option α
  | [], _ => none
  | (k, v) :: rest, key => if k = key then some v else lookupKey rest key

/-- Go map write `m[k] = v`: replace the binding if the key exists, else append. -/
def mapSet {α : Type} : List (String × α) → String → α → List (String × α)
  | [], key, v => [(key, v)]
  | (k, w) :: rest, key, v =>
    if k = key then (key, v) :: rest else (k, w) :: mapSet rest key v

/-- The keys of a Go map. -/
def mapKeys {α : Type} (l : List (String × α)) : List String := l.map (·.1)

/-- Whether `needle` occurs as a contiguous sublist. -/
def charsContain (needle : List Char) : List Char → Bool
  | [] => needle.isEmpty
  | c :: rest => needle.isPrefixOf (c :: rest) || charsContain needle rest

/-- Go `strings.Contains`. -/
def strContains (s sub : String) : Bool :=
  charsContain sub.data s.data

/-- Structural equality of decoded JSON values, modelling
`mqutil.InterfaceEquals`' deep value equality on decoded data
(the helper itself lives outside the given sources; the spec describes it
as deep value equality). -/
def JsonValue.beq : JsonValue → JsonValue → Bool
  | .vnull, .vnull => true
  | .vbool a, .vbool b => a == b
  | .vint a, .vint b => a == b
  | .vnum a, .vnum b => a == b
  | .vstr a, .vstr b => a == b
  | .vnumstr a, .vnumstr b => a == b
  | .vobj fs, .vobj gs => beqFields fs gs
  | .varr xs, .varr ys => beqItems xs ys
  | _, _ => false
where
  /-- Field-list equality for `vobj`. -/
  beqFields : List (String × JsonValue) → List (String × JsonValue) → Bool
    | [], [] => true
    | (k, v) :: fs, (k', v') :: gs => k == k' && JsonValue.beq v v' && beqFields fs gs
    | _, _ => false
  /-- Element-list equality for `varr`. -/
  beqItems : List JsonValue → List JsonValue → Bool
    | [], [] => true
    | x :: xs, y :: ys => JsonValue.beq x y && beqItems xs ys
    | _, _ => false

/-- The error kinds of `mqutil.NewError` (`mqutil` is outside the given
sources; the kinds are taken from the spec's error taxonomy in §7 and the
kind constants named at the call sites in `db.go` and `dsl.go`). -/
inductive ErrKind : Type where
  | invalid : ErrKind
  | notFound : ErrKind
  | internal : ErrKind
  | schemaMismatch : ErrKind
  deriving DecidableEq

/-- An error produced by the Go code: a structured `mqutil` error, a plain
`errors.New` error, or a runtime panic (a crash, not a returned value). -/
inductive GoErr : Type where
  | err (kind : ErrKind) (msg : String) : GoErr
  | plain (msg : String) : GoErr
  | panicked (msg : String) : GoErr
  deriving DecidableEq

/-- Whether an `Except` computation succeeded. -/
def exceptOk {ε α : Type} : Except ε α → Bool
  | .ok _ => true
  | .error _ => false

/-- A schema node. In the Go code this is `mqswag.SchemaRef`, i.e.
`openapi3.SchemaRef` — a `$ref` string together with a schema value whose
fields (`Type`, `Format`, `Description`, `Pattern`, `MinLength`,
`MaxLength`, `Min`, `Max`, `Required`, `Properties`, `AllOf`, `Items`) are
the ones the given sources read. The Go pointer structure (`Value` possibly
nil) is flattened: a pure reference node carries empty value fields. -/
inductive SchemaRef : Type where
  | mk (ref : String) (type : String) (format : String) (description : String)
      (pattern : String) (minLength : Nat) (maxLength : Option Nat)
      (minimum : Option Rat) (maximum : Option Rat)
      (required : List String)
      (properties : List (String × SchemaRef))
      (allOf : List SchemaRef)
      (items : Option SchemaRef) : SchemaRef

def SchemaRef.ref : SchemaRef → String
  | .mk x _ _ _ _ _ _ _ _ _ _ _ _ => x

def SchemaRef.type : SchemaRef → String
  | .mk _ x _ _ _ _ _ _ _ _ _ _ _ => x

def SchemaRef.format : SchemaRef → String
  | .mk _ _ x _ _ _ _ _ _ _ _ _ _ => x

def SchemaRef.description : SchemaRef → String
  | .mk _ _ _ x _ _ _ _ _ _ _ _ _ => x

def SchemaRef.pattern : SchemaRef → String
  | .mk _ _ _ _ x _ _ _ _ _ _ _ _ => x

def SchemaRef.minLength : SchemaRef → Nat
  | .mk _ _ _ _ _ x _ _ _ _ _ _ _ => x

def SchemaRef.maxLength : SchemaRef → Option Nat
  | .mk _ _ _ _ _ _ x _ _ _ _ _ _ => x

def SchemaRef.minimum : SchemaRef → Option Rat
  | .mk _ _ _ _ _ _ _ x _ _ _ _ _ => x

def SchemaRef.maximum : SchemaRef → Option Rat
  | .mk _ _ _ _ _ _ _ _ x _ _ _ _ => x

def SchemaRef.required : SchemaRef → List String
  | .mk _ _ _ _ _ _ _ _ _ x _ _ _ => x

def SchemaRef.properties : SchemaRef → List (String × SchemaRef)
  | .mk _ _ _ _ _ _ _ _ _ _ x _ _ => x

def SchemaRef.allOf : SchemaRef → List SchemaRef
  | .mk _ _ _ _ _ _ _ _ _ _ _ x _ => x

def SchemaRef.items : SchemaRef → Option SchemaRef
  | .mk _ _ _ _ _ _ _ _ _ _ _ _ x => x

/-- A plain primitive schema of the given type. -/
def primSchema (ty : String) : SchemaRef :=
  .mk "" ty "" "" "" 0 none none none [] [] [] none

/-- The meqa annotation parsed out of a description field. -/
structure MeqaTag : Type where
  className : String
  property : String
  flags : Nat

/-- The Weak flag bit (`mqswag.FlagWeak`). -/
def FlagWeak : Nat := 1

/-- The suffix following the first occurrence of `marker`, if any. -/
def charsAfter (marker : List Char) : List Char → Option (List Char)
  | [] => if marker.isEmpty then some [] else none
  | c :: rest =>
    if marker.isPrefixOf (c :: rest) then some ((c :: rest).drop marker.length)
    else charsAfter marker rest

/-- The characters before the first occurrence of `stop`. -/
def takeUntilChar (stop : Char) : List Char → List Char
  | [] => []
  | c :: rest => if c == stop then [] else c :: takeUntilChar stop rest

/-- Split a character list on a separator character. -/
def splitOnChar (sep : Char) : List Char → List (List Char)
  | [] => [[]]
  | c :: rest =>
    if c == sep then [] :: splitOnChar sep rest
    else
      match splitOnChar sep rest with
      | [] => [[c]]
      | part :: parts => (c :: part) :: parts

/-- Modelled from the spec: `GetMeqaTag` (defined in `mqswag` outside the
given sources) parses the small annotation embedded in a schema's
human-readable description into a `{class, property, flags}` tag, whose
only defined flag bit is Weak (§3, §9). We model the annotation syntax as
the marker `"<meqa class.property>"` optionally carrying a third `weak`
component (`"<meqa class.property.weak>"`) which sets the Weak bit. -/
def GetMeqaTag (desc : String) : Option MeqaTag :=
  match charsAfter "<meqa ".data desc.data with
  | none => none
  | some rest =>
    let parts := (splitOnChar '.' (takeUntilChar '>' rest)).map String.mk
    some ⟨(parts.get? 0).getD "", (parts.get? 1).getD "",
          if parts.contains "weak" then FlagWeak else 0⟩

/-- The Go guard `tag != nil && (tag.Flags&FlagWeak) != 0`. -/
def weakTagged (desc : String) : Bool :=
  match GetMeqaTag desc with
  | some tag => tag.flags &&& FlagWeak != 0
  | none => false

/-- The parts of the swagger document the given sources read: the named
schema definitions, the base path, and the path → operations table
(operations are introduced with the DSL model below and referenced here
through `PathItemRef`, defined later; to keep a single document type the
paths table is stored untyped-by-name and interpreted by the DSL code). -/
structure Swagger (π : Type) : Type where
  schemas : List (String × SchemaRef)
  basePath : String
  paths : List (String × π)

/-- Modelled from the spec: `Swagger.GetReferredSchema` (defined in
`mqswag/swagger.go`, outside the given sources) resolves a reference node
against the document's named schema definitions — §4.1: "`Reference{name}`
resolves, via the external document, to a named top-level SchemaNode".
A node with an empty `ref` is not a reference (`Value != nil` in Go is the
resolved-schema signal); a reference whose name is absent from the document
is an error. The model takes the `ref` string to be the bare schema name. -/
def Swagger.GetReferredSchema {π : Type} (sw : Swagger π) (s : SchemaRef) :
    Except GoErr (Option (String × SchemaRef)) :=
  if s.ref = "" then .ok none
  else
    match lookupKey sw.schemas s.ref with
    | some t => .ok (some (s.ref, t))
    | none => .error (.err .notFound ("schema not found: " ++ s.ref))

/-- Go `fmt.Sprint` on a decoded JSON value, as used by `Validate`'s
pattern check. Numeric formatting is approximated (Go prints floats with
`%v`); no theorem below depends on the printed form of numbers, objects or
arrays, since the regex matcher is injected. -/
def fmtSprint : JsonValue → String
  | .vnull => "<nil>"
  | .vbool b => if b then "true" else "false"
  | .vint n => toString n
  | .vnum q => toString q
  | .vstr s => s
  | .vnumstr s => s
  | .vobj _ => "map[]"
  | .varr _ => "[]"

/-- `mqswag.Validate` (db.go). The regex matcher `rm` stands for
`regexp.MatchString` (external). Result `none` models the Go runtime
panic of a failed type assertion: `c.(string)` on a non-`string`, or
`c.(float64)` on a non-`float64` when a numeric bound is declared. -/
def Validate {π : Type} (_sw : Swagger π) (rm : String → String → Bool)
    (s : SchemaRef) (c : JsonValue) : Option Bool :=
  let patternCheck : Option Bool :=
    if s.pattern.length > 0 then
      if rm s.pattern (fmtSprint c) then some true else some false
    else some true
  if s.type = "string" then
    match c with
    | .vstr str =>
      if decide (str.length < s.minLength)
          || (match s.maxLength with
              | some m => decide (m < str.length)
              | none => false) then
        some false
      else patternCheck
    | _ => none
  else if s.type = "number" || s.type = "integer" then
    match s.minimum, s.maximum with
    | none, none => patternCheck
    | mn, mx =>
      match c with
      | .vnum q =>
        if (match mn with | some m => decide (q < m) | none => false)
            || (match mx with | some m => decide (m < q) | none => false) then
          some false
        else patternCheck
      | _ => none
  else patternCheck

/-- The `AllOf` accumulation loop of `GetProperties`, abstracted over the
recursive call so that `GetProperties` can recurse structurally on
`fuel`. -/
def getPropsAllOfAux (gp : SchemaRef → List (String × SchemaRef))
    (members : List SchemaRef) (acc : List (String × SchemaRef)) :
    List (String × SchemaRef) :=
  match members with
  | [] => acc
  | s :: rest =>
    let p := gp s
    getPropsAllOfAux gp rest (p.foldl (fun m kv => mapSet m kv.1 kv.2) acc)

/-- `SchemaRef.GetProperties` (db.go): the first-level named properties,
following `$ref`s and flattening `AllOf` by map union (later members
overwrite earlier ones on the same key, as Go map assignment does).
`fuel` bounds the reference-chasing depth; the Go code diverges on a
cyclic reference chain, which the model maps to `[]` at fuel 0. -/
def SchemaRef.GetProperties {π : Type} (fuel : Nat) (sw : Swagger π)
    (schema : SchemaRef) : List (String × SchemaRef) :=
  if schema.properties.length > 0 then schema.properties
  else
    match fuel with
    | 0 => []
    | fuel + 1 =>
      match sw.GetReferredSchema schema with
      | .error _ => []
      | .ok (some (_, referred)) => SchemaRef.GetProperties fuel sw referred
      | .ok none =>
        if schema.allOf.length > 0 then
          getPropsAllOfAux (fun s => SchemaRef.GetProperties fuel sw s) schema.allOf []
        else []

/-- The `AllOf` accumulation loop of `GetProperties`. -/
def SchemaRef.GetPropertiesAllOf {π : Type} (fuel : Nat) (sw : Swagger π)
    (members : List SchemaRef) (acc : List (String × SchemaRef)) :
    List (String × SchemaRef) :=
  getPropsAllOfAux (fun s => SchemaRef.GetProperties fuel sw s) members acc

/-- The prefix `raiseError` in `Parses` puts before its message. The Go
message also embeds the pretty-printed schema and object (via the external
`json.MarshalIndent`); the model keeps only the fixed text. -/
def mismatchMsg (msg : String) : String :=
  "schema and object don't match - " ++ msg

/-- The tag-recording epilogue of `Parses` for primitive values
(`isProperty && !followRef` in db.go): a primitive whose schema carries a
meqa tag with both class and property set is recorded under
`"class.property"`. -/
def tagRecord (schema : SchemaRef) (object : JsonValue) (followRef : Bool) :
    Except GoErr JsonMap :=
  if !followRef then
    match GetMeqaTag schema.description with
    | some tag =>
      if tag.className.length > 0 && tag.property.length > 0 then
        .ok [(tag.className ++ "." ++ tag.property, object)]
      else .ok []
    | none => .ok []
  else .ok []

/-- Whether a decoded value is JSON null (`object == nil` in Go). -/
def JsonValue.isNull : JsonValue → Bool
  | .vnull => true
  | _ => false

/-- Error-propagating sequencing of two steps (the `if err != nil {
return err }` idiom); keeping it a named function lets the equation
generator handle recursive calls in its first argument. -/
def exceptStep {α β : Type} (x : Except GoErr α) (g : α → Except GoErr β) :
    Except GoErr β :=
  match x with
  | .error e => .error e
  | .ok a => g a

/-- The first schema-required field missing from the object, if any
(the required-field loop of `Parses`' object branch). -/
def firstMissingRequired (req : List String) (fields : JsonMap) : Option String :=
  req.find? (fun r => !(mapKeys fields).contains r)

/-- The property loop of `Parses`' object branch, abstracted over the
recursive call so that `Parses` can recurse structurally on `fuel`. -/
def parsesFieldsAux (parse : SchemaRef → JsonValue → Except GoErr JsonMap)
    (props : List (String × SchemaRef)) (fields : JsonMap) :
    Except GoErr (Nat × JsonMap) :=
  match fields with
  | [] => .ok (0, [])
  | (k, v) :: rest =>
    match lookupKey props k with
    | none => parsesFieldsAux parse props rest
    | some psch =>
      exceptStep (parse psch v)
        (fun log =>
          exceptStep (parsesFieldsAux parse props rest)
            (fun cl => .ok (cl.1 + 1, log ++ cl.2)))

/-- The member loop of `Parses`' `AllOf` branch, abstracted over the
recursive call and the property lookup. -/
def parsesAllOfAux (parse : SchemaRef → JsonValue → Except GoErr JsonMap)
    (gp : SchemaRef → List (String × SchemaRef)) (fields : JsonMap)
    (members : List SchemaRef) : Except GoErr (Nat × JsonMap) :=
  match members with
  | [] => .ok (0, [])
  | s :: rest =>
    let p := gp s
    if p.length = 0 then parsesAllOfAux parse gp fields rest
    else
      let m := fields.filter (fun kv => (lookupKey p kv.1).isSome)
      exceptStep (parse s (.vobj m))
        (fun log =>
          exceptStep (parsesAllOfAux parse gp fields rest)
            (fun cl => .ok (m.length + cl.1, log ++ cl.2)))

/-- The element loop of `Parses`' array branch, abstracted over the
recursive call. -/
def parsesItemsAux (parse : JsonValue → Except GoErr JsonMap)
    (elems : List JsonValue) : Except GoErr JsonMap :=
  match elems with
  | [] => .ok []
  | x :: xs =>
    exceptStep (parse x)
      (fun log =>
        exceptStep (parsesItemsAux parse xs)
          (fun log2 => .ok (log ++ log2)))

/-- `SchemaRef.Parses` (db.go). Checks `object` against `schema` and
collects the recognized objects; the Go code appends them into a caller
supplied map, which the model returns as the ordered list of `(key, value)`
recordings (the collection is only ever appended to, so the delta fully
determines the Go map's evolution). `rm` is the external regex matcher.
`fuel` bounds recursion depth: the Go original diverges on cyclic `$ref`
chains, which the model maps to a `panicked` result at fuel 0. The list
loops of the source (object fields, `AllOf` members, array elements) are
the `parses*Aux` functions above, instantiated with the recursive call at
the decremented fuel. -/
def SchemaRef.Parses {π : Type} (fuel : Nat) (sw : Swagger π)
    (rm : String → String → Bool) (name : String) (schema : SchemaRef)
    (object : JsonValue) (followRef : Bool) : Except GoErr JsonMap :=
  if object.isNull then .ok []
  else
    match fuel with
    | 0 => .error (.panicked "recursion limit")
    | fuel + 1 =>
      match sw.GetReferredSchema schema with
      | .error e => .error e
      | .ok (some (refName, referred)) =>
        if !followRef then .ok []
        else SchemaRef.Parses fuel sw rm refName referred object followRef
      | .ok none =>
        if schema.allOf.length > 0 then
          -- AllOf can only be combining several objects.
          match object with
          | .vobj fields =>
            exceptStep (parsesAllOfAux
                (fun s o => SchemaRef.Parses fuel sw rm "" s o followRef)
                (fun s => SchemaRef.GetProperties fuel sw s) fields schema.allOf)
              (fun cl =>
                if cl.1 * 4 < fields.length * 3 then
                  .error (.plain (mismatchMsg "too many mismatched fields"))
                else
                  .ok (cl.2 ++ (if name.length > 0 then [(name, .vobj fields)] else [])))
          | _ => .error (.plain (mismatchMsg "object is not a map"))
        else
          match object with
          | .vbool _ =>
            if !strContains schema.type "boolean" then
              .error (.plain (mismatchMsg "schema is not a boolean"))
            else tagRecord schema object followRef
          | .vint _ =>
            if !strContains schema.type "integer" && !strContains schema.type "number" then
              .error (.plain (mismatchMsg "schema is not an integer"))
            else
              match Validate sw rm schema object with
              | none => .error (.panicked "interface conversion in Validate")
              | some false => .error (.plain (mismatchMsg "integer validation failed"))
              | some true => tagRecord schema object followRef
          | .vnum _ =>
            if !strContains schema.type "integer" && !strContains schema.type "number" then
              .error (.plain (mismatchMsg "schema is not a floating point number"))
            else
              match Validate sw rm schema object with
              | none => .error (.panicked "interface conversion in Validate")
              | some false => .error (.plain (mismatchMsg "float validation failed"))
              | some true => tagRecord schema object followRef
          | .vstr _ =>
            -- a plain Go string is never a json.Number, so bothAreNumbers is false
            if strContains schema.type "string" then
              match Validate sw rm schema object with
              | none => .error (.panicked "interface conversion in Validate")
              | some false => .error (.plain (mismatchMsg "string validation failed"))
              | some true => tagRecord schema object followRef
            else .error (.plain (mismatchMsg "schema is not a number"))
          | .vnumstr _ =>
            if strContains schema.type "string" then
              match Validate sw rm schema object with
              | none => .error (.panicked "interface conversion in Validate")
              | some false => .error (.plain (mismatchMsg "string validation failed"))
              | some true => tagRecord schema object followRef
            else if !(strContains schema.type "integer" || strContains schema.type "number") then
              .error (.plain (mismatchMsg "schema is not a number"))
            else tagRecord schema object followRef
          | .vobj fields =>
            match firstMissingRequired schema.required fields with
            | some r => .error (.plain (mismatchMsg ("required field not present: " ++ r)))
            | none =>
              exceptStep (parsesFieldsAux
                  (fun psch v => SchemaRef.Parses fuel sw rm "" psch v followRef)
                  schema.properties fields)
                (fun cl =>
                  if cl.1 * 4 < fields.length * 3 then
                    .error (.plain (mismatchMsg "too many mis-matched fields"))
                  else
                    .ok (cl.2 ++ (if name.length > 0 then [(name, .vobj fields)] else [])))
          | .varr elems =>
            if !strContains schema.type "array" then
              .error (.plain (mismatchMsg "schema is not an array"))
            else
              match schema.items with
              | none => .error (.panicked "nil Items dereference")
              | some itemSchema =>
                parsesItemsAux
                  (fun x => SchemaRef.Parses fuel sw rm "" itemSchema x followRef) elems
          | .vnull => .ok []

/-- The member loop of `Parses`' `AllOf` branch: for each member schema
with a nonempty property set, extract the subset of the object's fields
the member recognizes, count them, and parse the subset against the
member. Returns the total count and the concatenated recordings. -/
def SchemaRef.ParsesAllOf {π : Type} (fuel : Nat) (sw : Swagger π)
    (rm : String → String → Bool) (members : List SchemaRef)
    (fields : JsonMap) (followRef : Bool) : Except GoErr (Nat × JsonMap) :=
  parsesAllOfAux (fun s o => SchemaRef.Parses fuel sw rm "" s o followRef)
    (fun s => SchemaRef.GetProperties fuel sw s) fields members

/-- The property loop of `Parses`' object branch: every object field whose
name the schema declares is counted and recursively parsed. -/
def SchemaRef.ParsesFields {π : Type} (fuel : Nat) (sw : Swagger π)
    (rm : String → String → Bool) (props : List (String × SchemaRef))
    (fields : JsonMap) (followRef : Bool) : Except GoErr (Nat × JsonMap) :=
  parsesFieldsAux (fun psch v => SchemaRef.Parses fuel sw rm "" psch v followRef)
    props fields

/-- The element loop of `Parses`' array branch. -/
def SchemaRef.ParsesItems {π : Type} (fuel : Nat) (sw : Swagger π)
    (rm : String → String → Bool) (itemSchema : SchemaRef)
    (elems : List JsonValue) (followRef : Bool) : Except GoErr JsonMap :=
  parsesItemsAux (fun x => SchemaRef.Parses fuel sw rm "" itemSchema x followRef) elems

/-- `SchemaRef.Matches` (db.go): true iff `Parses` with `followRef = true`
succeeds. -/
def SchemaRef.Matches {π : Type} (fuel : Nat) (sw : Swagger π)
    (rm : String → String → Bool) (schema : SchemaRef) (object : JsonValue) : Bool :=
  exceptOk (SchemaRef.Parses fuel sw rm "" schema object true)

mutual

/-- `SchemaRef.Iterate` (db.go): preorder traversal. A node tagged Weak is
skipped entirely when `followWeak` is false. `AllOf` members are traversed
and nothing else; a reference's referent gets the visitor invoked once and
is never expanded further; otherwise object properties and the array item
schema are traversed. The visitor `f` receives the schema name, the schema,
and threads a context value (modelling the Go `context interface{}`
argument, which visitors mutate through a pointer); its error aborts the
traversal. The function is structurally recursive, hence total: the model
itself witnesses that `Iterate` terminates on every schema graph. -/
def SchemaRef.Iterate {π σ : Type} (sw : Swagger π)
    (f : String → SchemaRef → σ → Except GoErr σ) (followWeak : Bool)
    (s : SchemaRef) (ctx : σ) : Except GoErr σ :=
  match s with
  | .mk ref ty fmt desc pat minL maxL mn mx req props allOf items =>
    if weakTagged desc && !followWeak then .ok ctx
    else
      match f "" (SchemaRef.mk ref ty fmt desc pat minL maxL mn mx req props allOf items) ctx with
      | .error e => .error e
      | .ok ctx =>
        if allOf.length > 0 then
          SchemaRef.IterateAllOf sw f followWeak allOf ctx
        else
          match sw.GetReferredSchema
              (SchemaRef.mk ref ty fmt desc pat minL maxL mn mx req props allOf items) with
          | .error e => .error e
          | .ok (some (refName, referred)) =>
            if weakTagged referred.description && !followWeak then .ok ctx
            else
              -- We don't want to go down nested schemas: the referent is
              -- visited once and never expanded further.
              f refName referred ctx
          | .ok none =>
            exceptStep (if strContains ty "object"
                        then SchemaRef.IterateProps sw f followWeak props ctx
                        else .ok ctx)
              (fun ctx =>
                if strContains ty "array" then
                  match items with
                  | none => .error (.panicked "nil Items dereference")
                  | some itemSchema => SchemaRef.Iterate sw f followWeak itemSchema ctx
                else .ok ctx)

/-- The `AllOf` member loop of `Iterate`. -/
def SchemaRef.IterateAllOf {π σ : Type} (sw : Swagger π)
    (f : String → SchemaRef → σ → Except GoErr σ) (followWeak : Bool)
    (l : List SchemaRef) (ctx : σ) : Except GoErr σ :=
  match l with
  | [] => .ok ctx
  | s :: rest =>
    exceptStep (SchemaRef.Iterate sw f followWeak s ctx)
      (fun ctx => SchemaRef.IterateAllOf sw f followWeak rest ctx)

/-- The property loop of `Iterate`. -/
def SchemaRef.IterateProps {π σ : Type} (sw : Swagger π)
    (f : String → SchemaRef → σ → Except GoErr σ) (followWeak : Bool)
    (pl : List (String × SchemaRef)) (ctx : σ) : Except GoErr σ :=
  match pl with
  | [] => .ok ctx
  | (_, v) :: rest =>
    exceptStep (SchemaRef.Iterate sw f followWeak v ctx)
      (fun ctx => SchemaRef.IterateProps sw f followWeak rest ctx)

end

/-- The all-value-fields-empty `SchemaRef{}` zero value. -/
def SchemaRef.empty : SchemaRef :=
  .mk "" "" "" "" "" 0 none none none [] [] [] none

/-- An association table: class name → related object
(`map[string]map[string]interface{}` in Go). -/
abbrev AssocMap := List (String × JsonMap)

/-- Modelled from the spec: `mqutil.InterfaceEquals` (outside the given
sources) is deep value equality of decoded JSON data (§4.2 Find: "equals
(by deep value equality)"). A supplied association compared against an
absent (nil) recorded one is unequal. -/
def InterfaceEquals (m : JsonMap) (o : Option JsonMap) : Bool :=
  match o with
  | some m' => JsonValue.beq (.vobj m) (.vobj m')
  | none => false

/-- Modelled from the spec: `mqutil.MapCombine` (outside the given sources)
merges the new object's fields into the entry's data — "existing fields
overwritten, new fields added" (§4.2 Update). -/
def MapCombine (dst src : JsonMap) : JsonMap :=
  src.foldl (fun m kv => mapSet m kv.1 kv.2) dst

/-- `mqswag.DBEntry` (db.go): one stored object plus its associations. -/
structure DBEntry : Type where
  data : JsonMap
  associations : AssocMap

/-- `mqswag.MatchFunc`: criteria × existing entry data → bool. -/
abbrev MatchFunc := JsonValue → JsonMap → Bool

/-- `mqswag.MatchAlways` (db.go). -/
def MatchAlways : MatchFunc := fun _ _ => true

/-- `DBEntry.Matches` (db.go): every caller-supplied association must
deep-equal the entry's recorded association for that class, and the match
function must accept the entry's data. -/
def DBEntry.Matches (entry : DBEntry) (criteria : JsonValue)
    (associations : AssocMap) (matchFn : MatchFunc) : Bool :=
  associations.all
    (fun kv => InterfaceEquals kv.2 (lookupKey entry.associations kv.1))
    && matchFn criteria entry.data

/-- `mqswag.SchemaDB` (db.go): one schema's collection of objects. -/
structure SchemaDB : Type where
  name : String
  schema : SchemaRef
  noHistory : Bool
  objects : List DBEntry

/-- `SchemaDB.Insert` (db.go). The Go code type-asserts
`obj.(map[string]interface{})`, which panics on a non-map. -/
def SchemaDB.Insert (db : SchemaDB) (obj : JsonValue) (associations : AssocMap) :
    Except GoErr SchemaDB :=
  if !db.noHistory then
    match obj with
    | .vobj m => .ok { db with objects := db.objects ++ [⟨m, associations⟩] }
    | _ => .error (.panicked "interface conversion: obj is not a map")
  else .ok db

/-- `SchemaDB.CloneSchema` (db.go): same schema, no objects. -/
def SchemaDB.CloneSchema (db : SchemaDB) : SchemaDB :=
  { db with objects := [] }

/-- The scan loop of `SchemaDB.Find` (db.go): collect matching entries'
data in order, stopping once `desiredCount` (when non-negative) results
have been gathered. `len` is the running `len(result)`. -/
def findScan (p : DBEntry → Bool) (desired : Int) :
    List DBEntry → Nat → List JsonMap
  | [], _ => []
  | e :: rest, len =>
    if p e then
      if 0 ≤ desired ∧ desired ≤ (len : Int) + 1 then [e.data]
      else e.data :: findScan p desired rest (len + 1)
    else findScan p desired rest len

/-- `SchemaDB.Find` (db.go). -/
def SchemaDB.Find (db : SchemaDB) (criteria : JsonValue) (associations : AssocMap)
    (matchFn : MatchFunc) (desiredCount : Int) : List JsonMap :=
  findScan (fun e => e.Matches criteria associations matchFn) desiredCount db.objects 0

/-- The scan loop of `SchemaDB.Delete` (db.go), replayed exactly: when
entry `i` matches, slot `i` is overwritten with slot `count` and `count`
is incremented; after the loop the first `count` slots are dropped. -/
def deleteScan (p : DBEntry → Bool) (desired : Int) (i count : Nat)
    (l : List DBEntry) : Nat × List DBEntry :=
  if h : i < l.length then
    if p (l.get ⟨i, h⟩) then
      if 0 ≤ desired ∧ desired ≤ ((count + 1 : Nat) : Int) then
        (count + 1, l.set i (l.getD count (l.get ⟨i, h⟩)))
      else deleteScan p desired (i + 1) (count + 1) (l.set i (l.getD count (l.get ⟨i, h⟩)))
    else deleteScan p desired (i + 1) count l
  else (count, l)
termination_by l.length - i
decreasing_by
  · simp only [List.length_set]; omega
  · omega

/-- `SchemaDB.Delete` (db.go): returns the number deleted. -/
def SchemaDB.Delete (db : SchemaDB) (criteria : JsonValue) (associations : AssocMap)
    (matchFn : MatchFunc) (desiredCount : Int) : Nat × SchemaDB :=
  ((deleteScan (fun e => e.Matches criteria associations matchFn) desiredCount 0 0 db.objects).1,
    { db with objects :=
        ((deleteScan (fun e => e.Matches criteria associations matchFn) desiredCount 0 0 db.objects).2.drop
          (deleteScan (fun e => e.Matches criteria associations matchFn) desiredCount 0 0 db.objects).1) })

/-- The scan loop of `SchemaDB.Update` (db.go): each matching entry's data
is patched (`MapCombine`) or replaced; associations are untouched. -/
def updateScan (p : DBEntry → Bool) (newObj : JsonMap) (patch : Bool)
    (desired : Int) : List DBEntry → Nat → Nat × List DBEntry
  | [], count => (count, [])
  | e :: rest, count =>
    if p e then
      if 0 ≤ desired ∧ desired ≤ ((count + 1 : Nat) : Int) then
        (count + 1,
          { e with data := if patch then MapCombine e.data newObj else newObj } :: rest)
      else
        ((updateScan p newObj patch desired rest (count + 1)).1,
          { e with data := if patch then MapCombine e.data newObj else newObj }
            :: (updateScan p newObj patch desired rest (count + 1)).2)
    else
      ((updateScan p newObj patch desired rest count).1,
        e :: (updateScan p newObj patch desired rest count).2)

/-- `SchemaDB.Update` (db.go): returns the number updated. -/
def SchemaDB.Update (db : SchemaDB) (criteria : JsonValue) (associations : AssocMap)
    (matchFn : MatchFunc) (newObj : JsonMap) (desiredCount : Int) (patch : Bool) :
    Nat × SchemaDB :=
  ((updateScan (fun e => e.Matches criteria associations matchFn) newObj patch
      desiredCount db.objects 0).1,
    { db with objects :=
        (updateScan (fun e => e.Matches criteria associations matchFn) newObj patch
          desiredCount db.objects 0).2 })

/-- `mqswag.DB` (db.go): the object store — one `SchemaDB` per schema name,
plus the source document. The Go mutex serializes access and carries no
state; operations are modelled as atomic functions on the store value. -/
structure DB (π : Type) : Type where
  schemas : List (String × SchemaDB)
  swagger : Swagger π

/-- `DB.Init` (db.go): one empty collection per named schema definition.
Go map assignment overwrites on a duplicate name (after a non-fatal
warning). -/
def DB.Init {π : Type} (s : Swagger π) : DB π :=
  { schemas := s.schemas.foldl (fun m kv => mapSet m kv.1 ⟨kv.1, kv.2, false, []⟩) []
    swagger := s }

/-- `DB.CloneSchema` (db.go): same schemas, empty collections. -/
def DB.CloneSchema {π : Type} (db : DB π) : DB π :=
  { db with schemas := db.schemas.map (fun kv => (kv.1, kv.2.CloneSchema)) }

/-- `DB.GetSchema` (db.go). -/
def DB.GetSchema {π : Type} (db : DB π) (name : String) : SchemaRef :=
  match lookupKey db.schemas name with
  | none => SchemaRef.empty
  | some sdb => sdb.schema

/-- `mqswag.CopyWithoutClass` (db.go): drop the association entry keyed by
the class itself. -/
def CopyWithoutClass (src : AssocMap) (className : String) : AssocMap :=
  src.filter (fun kv => kv.1 ≠ className)

/-- `DB.Insert` (db.go): fails with an Internal-kind error on an unknown
schema name; otherwise inserts with the self-association stripped. The
second component is the resulting store (unchanged on error). -/
def DB.Insert {π : Type} (db : DB π) (name : String) (obj : JsonValue)
    (associations : AssocMap) : Option GoErr × DB π :=
  match lookupKey db.schemas name with
  | none => (some (.err .internal ("inserting into non-existing schema: " ++ name)), db)
  | some sdb =>
    match sdb.Insert obj (CopyWithoutClass associations name) with
    | .error e => (some e, db)
    | .ok sdb' => (none, { db with schemas := mapSet db.schemas name sdb' })

/-- `DB.Find` (db.go): empty result on an unknown schema name. -/
def DB.Find {π : Type} (db : DB π) (name : String) (criteria : JsonValue)
    (associations : AssocMap) (matchFn : MatchFunc) (desiredCount : Int) :
    List JsonMap :=
  match lookupKey db.schemas name with
  | none => []
  | some sdb => sdb.Find criteria (CopyWithoutClass associations name) matchFn desiredCount

/-- `DB.Delete` (db.go): count 0 and unchanged store on an unknown name. -/
def DB.Delete {π : Type} (db : DB π) (name : String) (criteria : JsonValue)
    (associations : AssocMap) (matchFn : MatchFunc) (desiredCount : Int) :
    Nat × DB π :=
  match lookupKey db.schemas name with
  | none => (0, db)
  | some sdb =>
    ((sdb.Delete criteria (CopyWithoutClass associations name) matchFn desiredCount).1,
      { db with schemas :=
          (mapSet db.schemas name
            (sdb.Delete criteria (CopyWithoutClass associations name) matchFn desiredCount).2) })

/-- `DB.Update` (db.go): count 0 and unchanged store on an unknown name. -/
def DB.Update {π : Type} (db : DB π) (name : String) (criteria : JsonValue)
    (associations : AssocMap) (matchFn : MatchFunc) (newObj : JsonMap)
    (desiredCount : Int) (patch : Bool) : Nat × DB π :=
  match lookupKey db.schemas name with
  | none => (0, db)
  | some sdb =>
    ((sdb.Update criteria (CopyWithoutClass associations name) matchFn newObj desiredCount patch).1,
      { db with schemas :=
          (mapSet db.schemas name
            (sdb.Update criteria (CopyWithoutClass associations name) matchFn newObj
              desiredCount patch).2) })

/-- `DB.FindMatchingSchema` (db.go): first schema whose `Matches` accepts
the object; Go map iteration order is nondeterministic, the model scans in
list order. -/
def DB.FindMatchingSchema {π : Type} (fuel : Nat) (rm : String → String → Bool)
    (db : DB π) (obj : JsonValue) : String × SchemaRef :=
  match db.schemas.find? (fun kv => SchemaRef.Matches fuel db.swagger rm kv.2.schema obj) with
  | some kv => (kv.1, kv.2.schema)
  | none => ("", SchemaRef.empty)

/-- One random draw: the result of a `rand.Intn` call or a `rand.Float64`
call. A faithful stream supplies `rint` values arbitrary (they are reduced
mod the bound) and `rfloat` values in `[0, 1)`. -/
inductive RVal : Type where
  | rint (n : Nat) : RVal
  | rfloat (q : Rat) : RVal
  deriving DecidableEq

/-- The stream of random draws threaded through the generator. -/
abbrev RStream := List RVal

/-- `rand.Intn n`: uniform in `[0, n)`; panics when `n <= 0`. A draw of the
wrong kind, or an exhausted stream, yields 0 (still in range). -/
def drawIntn (n : Int) (rs : RStream) : Except GoErr (Nat × RStream) :=
  if n ≤ 0 then .error (.panicked "invalid argument to Intn")
  else
    match rs with
    | .rint k :: rest => .ok (k % n.toNat, rest)
    | .rfloat _ :: rest => .ok (0, rest)
    | [] => .ok (0, [])

/-- `rand.Float64`: the next float draw (a faithful stream keeps it in
`[0, 1)`; theorems that need the range state it as a hypothesis). -/
def drawFloat (rs : RStream) : Rat × RStream :=
  match rs with
  | .rfloat q :: rest => (q, rest)
  | .rint _ :: rest => (0, rest)
  | [] => (0, [])

/-- `spec.CommonValidations` (go-openapi), the constraint fields read by
the generator: numeric bounds with exclusivity flags, pattern, length and
item-count bounds, and the enum list. -/
structure CommonValidations : Type where
  maximum : Option Rat := none
  exclusiveMaximum : Bool := false
  minimum : Option Rat := none
  exclusiveMinimum : Bool := false
  pattern : String := ""
  maxLength : Option Int := none
  minLength : Option Int := none
  maxItems : Option Int := none
  minItems : Option Int := none
  enum : List JsonValue := []

/-- `spec.Items` (go-openapi): the element schema of an array parameter —
a simple schema (type/format plus nested items) with its validations. -/
inductive SimpleItems : Type where
  | mk (type : String) (format : String) (cv : CommonValidations)
      (items : Option SimpleItems) : SimpleItems

def SimpleItems.type : SimpleItems → String
  | .mk x _ _ _ => x

def SimpleItems.format : SimpleItems → String
  | .mk _ x _ _ => x

def SimpleItems.cv : SimpleItems → CommonValidations
  | .mk _ _ x _ => x

def SimpleItems.items : SimpleItems → Option SimpleItems
  | .mk _ _ _ x => x

/-- `spec.SimpleSchema` (go-openapi): type, format, and array items. -/
structure SimpleSchemaM : Type where
  type : String := ""
  format : String := ""
  items : Option SimpleItems := none

/-- `spec.Parameter` (go-openapi), the fields the generator reads: the
name, the optional body schema, the embedded simple schema and the
embedded common validations (which carry the enum). -/
structure Parameter : Type where
  name : String := ""
  schema : Option SchemaRef := none
  simple : SimpleSchemaM := {}
  cv : CommonValidations := {}

/-- The external collaborators of the generator, injected as functions:
`reggen` (random string from a regex pattern, can reject a bad pattern),
`time` formatting of a random recent instant, and the base64/hex
encoders. -/
structure GenEnv : Type where
  reggenGen : String → Nat → Except String String
  timeFormat : String → Rat → String
  b64encode : String → String
  hexEncode : String → String

/-- `generateBool` (dsl.go): `rand.Intn(2) == 0`. -/
def generateBool (rs : RStream) : Except GoErr (Bool × RStream) :=
  match drawIntn 2 rs with
  | .error e => .error e
  | .ok (k, rs') => .ok (k == 0, rs')

/-- Go `int64(f)`: truncation toward zero. -/
def goTrunc (q : Rat) : Int :=
  if 0 ≤ q then q.floor else q.ceil

/-- `generateFloat` (dsl.go). Exclusive bounds shrink the range by 0.01;
when the effective range is empty the bounds are rewritten: both absent →
`[-1, 1)`; a minimum present → `max := min + |min|` (this branch also
captures the case of two conflicting bounds); only a maximum present →
`min := max - |max|`. The final `else` arm — the "both are present but
conflicting" error of the source — is unreachable, since the `Minimum !=
nil` arm precedes it. -/
def generateFloat (v : CommonValidations) (rs : RStream) :
    Except GoErr (Rat × RStream) :=
  let realmin : Rat :=
    match v.minimum with
    | some m => if v.exclusiveMinimum then m + 1/100 else m
    | none => 0
  let realmax : Rat :=
    match v.maximum with
    | some m => if v.exclusiveMaximum then m - 1/100 else m
    | none => 0
  let adjusted : Except GoErr (Rat × Rat) :=
    if realmax ≤ realmin then
      if v.minimum = none ∧ v.maximum = none then .ok (-1, 1)
      else if v.minimum ≠ none then .ok (realmin, realmin + |realmin|)
      else if v.maximum ≠ none then .ok (realmax - |realmax|, realmax)
      else
        -- both are present but conflicting (dead code in the source)
        .error (.err .invalid "specified min value is bigger than max")
    else .ok (realmin, realmax)
  match adjusted with
  | .error e => .error e
  | .ok (mn, mx) =>
    let (q, rs') := drawFloat rs
    .ok (q * (mx - mn) + mn, rs')

/-- `generateInt` (dsl.go): truncate a float draw, bumping by one if the
truncation lands on or below the declared minimum. -/
def generateInt (v : CommonValidations) (rs : RStream) :
    Except GoErr (Int × RStream) :=
  match generateFloat v rs with
  | .error e => .error e
  | .ok (f, rs') =>
    let i := goTrunc f
    let i :=
      match v.minimum with
      | some m => if i ≤ goTrunc m then i + 1 else i
      | none => i
    .ok (i, rs')

/-- `generateString` (dsl.go): date formats produce a random recent
timestamp; otherwise a random string is generated from the declared
pattern (or a default `name-\d+` pattern) and post-processed by format. -/
def generateString (env : GenEnv) (s : SimpleSchemaM) (v : CommonValidations)
    (pfx : String) (rs : RStream) : Except GoErr (String × RStream) :=
  if s.format = "date-time" then
    let (q, rs') := drawFloat rs
    .ok (env.timeFormat "date-time" q, rs')
  else if s.format = "date" then
    let (q, rs') := drawFloat rs
    .ok (env.timeFormat "date" q, rs')
  else
    let pat := if v.pattern.length ≠ 0 then v.pattern else pfx ++ "\\d+"
    let len := if v.pattern.length ≠ 0 then v.pattern.length * 2 else pfx.length + 5
    match env.reggenGen pat len with
    | .error msg => .error (.err .invalid msg)
    | .ok str =>
      if s.format.length = 0 || s.format = "password" then .ok (str, rs)
      else if s.format = "byte" then .ok (env.b64encode str, rs)
      else if s.format = "binary" then .ok (env.hexEncode str, rs)
      else .error (.err .invalid ("Invalid format string: " ++ s.format))

/-- The element loop of `generateArray`, abstracted over the element
generator so the loop is structurally recursive on the count. -/
def generateArrayLoopAux (gen : RStream → Except GoErr (JsonValue × RStream)) :
    Nat → RStream → Except GoErr (List JsonValue × RStream)
  | 0, rs => .ok ([], rs)
  | n + 1, rs =>
    match gen rs with
    | .error e => .error e
    | .ok (x, rs') =>
      match generateArrayLoopAux gen n rs' with
      | .error e => .error e
      | .ok (xs, rs'') => .ok (x :: xs, rs'')

/-- `generateByType` (dsl.go): dispatch on the declared simple type; any
other type hits `panic("not implemented")`. The source's mutually
recursive `generateArray` is inlined in the array branch: negative item
bounds clamp to 0; an empty effective range reaches `rand.Intn(0)`, which
panics (the `count` variable of the source is computed but never used);
each element is generated from the `Items` schema, whose nil
dereference — when at least one element is requested — is a panic. -/
def generateByType (env : GenEnv) (s : SimpleSchemaM) (v : CommonValidations)
    (pfx : String) (rs : RStream) : Except GoErr (JsonValue × RStream) :=
  if s.type = "array" then
    let maxItems : Int :=
      match v.maxItems with
      | some m => if m < 0 then 0 else m
      | none => 0
    let minItems : Int :=
      match v.minItems with
      | some m => if m < 0 then 0 else m
      | none => 0
    let _count : Int := if minItems = maxItems ∧ minItems ≠ 0 then minItems else 0
    let maxDiff : Int := if maxItems - minItems < 0 then 1 else maxItems - minItems
    match drawIntn maxDiff rs with
    | .error e => .error e
    | .ok (k, rs') =>
      let numItems : Int := (k : Int) + minItems
      match generateArrayLoopAux
          (fun rs0 =>
            match hit : s.items with
            | none => .error (.panicked "nil Items dereference")
            | some (.mk ty fm cvv its) =>
              generateByType env ⟨ty, fm, its⟩ cvv (pfx ++ "-") rs0)
          numItems.toNat rs' with
      | .error e => .error e
      | .ok (elems, rs'') => .ok (.varr elems, rs'')
  else if s.type = "boolean" then
    match generateBool rs with
    | .error e => .error e
    | .ok (b, rs') => .ok (.vbool b, rs')
  else if s.type = "integer" then
    match generateInt v rs with
    | .error e => .error e
    | .ok (i, rs') => .ok (.vint i, rs')
  else if s.type = "number" then
    match generateFloat v rs with
    | .error e => .error e
    | .ok (q, rs') => .ok (.vnum q, rs')
  else if s.type = "string" then
    match generateString env s v pfx rs with
    | .error e => .error e
    | .ok (str, rs') => .ok (.vstr str, rs')
  else .error (.panicked "not implemented")
termination_by sizeOf s.items
decreasing_by
  simp [hit]
  omega

/-- The element loop of `generateArray` (dsl.go). -/
def generateArrayLoop (env : GenEnv) (itemsOpt : Option SimpleItems)
    (_v : CommonValidations) (pfx : String) (n : Nat) (rs : RStream) :
    Except GoErr (List JsonValue × RStream) :=
  generateArrayLoopAux
    (fun rs0 =>
      match itemsOpt with
      | none => .error (.panicked "nil Items dereference")
      | some (.mk ty fm cvv its) =>
        generateByType env ⟨ty, fm, its⟩ cvv (pfx ++ "-") rs0)
    n rs

/-- `generateArray` (dsl.go): negative item bounds clamp to 0; an empty
effective range reaches `rand.Intn(0)`, which panics (the `count`
variable of the source is computed but never used). Each element is
generated from the `Items` schema. -/
def generateArray (env : GenEnv) (s : SimpleSchemaM) (v : CommonValidations)
    (pfx : String) (rs : RStream) : Except GoErr (JsonValue × RStream) :=
  let maxItems : Int :=
    match v.maxItems with
    | some m => if m < 0 then 0 else m
    | none => 0
  let minItems : Int :=
    match v.minItems with
    | some m => if m < 0 then 0 else m
    | none => 0
  let _count : Int := if minItems = maxItems ∧ minItems ≠ 0 then minItems else 0
  let maxDiff : Int := if maxItems - minItems < 0 then 1 else maxItems - minItems
  match drawIntn maxDiff rs with
  | .error e => .error e
  | .ok (k, rs') =>
    let numItems : Int := (k : Int) + minItems
    match generateArrayLoop env s.items v pfx numItems.toNat rs' with
    | .error e => .error e
    | .ok (elems, rs'') => .ok (.varr elems, rs'')

/-- `generateBySchema` (dsl.go): the body-schema path is
`panic("not implemented")` — a crash, not a returned error. -/
def generateBySchema (_schema : SchemaRef) : Except GoErr (JsonValue × RStream) :=
  .error (.panicked "not implemented")

/-- Modelled from the spec: `generateObject`, called by `generateParameter`
for object-typed parameters, is absent from the given sources; §4.3 step 1
describes composite/object generation as "not implemented for full body
schemas in the current baseline". Modelled as the same not-implemented
panic as `generateBySchema`. -/
def generateObject (_p : Parameter) : Except GoErr (JsonValue × RStream) :=
  .error (.panicked "not implemented")

/-- `generateByEnum` (dsl.go): pick a uniform member and render it with
`fmt.Sprintf("%v", ...)` — the result is always a string. -/
def generateByEnum (p : Parameter) (rs : RStream) :
    Except GoErr (JsonValue × RStream) :=
  match drawIntn (p.cv.enum.length : Int) rs with
  | .error e => .error e
  | .ok (k, rs') => .ok (.vstr (fmtSprint (p.cv.enum.getD k .vnull)), rs')

/-- `generateParameter` (dsl.go): body schema → `generateBySchema`
(a panic); else enum; else missing type is an Invalid error; else
object-typed → `generateObject`; else dispatch on the simple type. -/
def generateParameter (env : GenEnv) (p : Parameter) (rs : RStream) :
    Except GoErr (JsonValue × RStream) :=
  match p.schema with
  | some s => generateBySchema s
  | none =>
    if p.cv.enum.length ≠ 0 then generateByEnum p rs
    else if p.simple.type.length = 0 then
      .error (.err .invalid "Parameter doesn't have type")
    else if p.simple.type = "object" then generateObject p
    else generateByType env p.simple p.cv (p.name ++ "-") rs

/-- `spec.Operation` (go-openapi), the field the given sources read. -/
structure Operation : Type where
  parameters : List Parameter

/-- `spec.PathItem` (go-openapi): one optional operation per method. -/
structure PathItem : Type where
  get : Option Operation := none
  put : Option Operation := none
  post : Option Operation := none
  delete : Option Operation := none
  patch : Option Operation := none
  head : Option Operation := none
  options : Option Operation := none

/-- The zero `spec.PathItem`, what a Go map read returns for a missing
path. -/
def emptyPathItem : PathItem := {}

/-- `getOperationByMethod` (dsl.go). -/
def getOperationByMethod (item : PathItem) (method : String) : Option Operation :=
  match method with
  | "GET" => item.get
  | "POST" => item.post
  | "PUT" => item.put
  | "DELETE" => item.delete
  | "PATCH" => item.patch
  | "HEAD" => item.head
  | "OPTIONS" => item.options
  | _ => none

/-- `mqplan.Test` (dsl.go): one test step of the DSL. `Parameters` is a
Go map that YAML unmarshalling leaves nil when the test step carries no
`parameters` key; `none` models the nil map (reads yield nothing, writes
panic), `some` a present map. -/
structure Test : Type where
  name : String := ""
  path : String := ""
  method : String := ""
  ref : String := ""
  parameters : Option (List (String × JsonValue)) := none

/-- The parameter loop of `Test.ResolveParameters` (dsl.go): skip
parameters already supplied (reading a nil map yields nothing); generate
the first missing one, store it — a panic when the test's parameters map
is nil, since Go assignment to an entry of a nil map panics — and return
immediately (`return nil` inside the loop). -/
def resolveLoop (env : GenEnv) (t : Test) :
    List Parameter → RStream → Except GoErr (Test × RStream)
  | [], rs => .ok (t, rs)
  | p :: rest, rs =>
    if (lookupKey (t.parameters.getD []) p.name).isSome then resolveLoop env t rest rs
    else
      match generateParameter env p rs with
      | .error e => .error e
      | .ok (v, rs') =>
        match t.parameters with
        | none => .error (.panicked "assignment to entry in nil map")
        | some m => .ok ({ t with parameters := some (mapSet m p.name v) }, rs')

/-- `Test.ResolveParameters` (dsl.go): look up the path (a missing path
yields the zero `PathItem`, hence a nil operation and a NotFound error),
then fill at most the first missing declared parameter. -/
def Test.ResolveParameters (env : GenEnv) (sw : Swagger PathItem) (t : Test)
    (rs : RStream) : Except GoErr (Test × RStream) :=
  let pathItem := (lookupKey sw.paths t.path).getD emptyPathItem
  match getOperationByMethod pathItem t.method with
  | none => .error (.err .notFound ("Path " ++ t.path ++ " not found in swagger file"))
  | some op => resolveLoop env t op.parameters rs

/-- `mqplan.TestCase` (dsl.go). -/
abbrev TestCase := List Test

/-- `mqplan.TestPlan` (dsl.go). -/
structure TestPlan : Type where
  caseMap : List (String × TestCase)
  caseList : List TestCase

/-- `TestPlan.Add` (dsl.go): reject duplicate names, otherwise record the
case in both the map and the list. -/
def TestPlan.Add (plan : TestPlan) (name : String) (testCase : TestCase) :
    Except GoErr TestPlan :=
  if (lookupKey plan.caseMap name).isSome then
    .error (.plain ("Duplicate name " ++ name ++ " found in test plan"))
  else
    .ok { caseMap := mapSet plan.caseMap name testCase
          caseList := plan.caseList ++ [testCase] }

/-- The method upper-casing `AddFromString` applies to each test. -/
def upperTest (t : Test) : Test :=
  if t.method.length ≠ 0 then { t with method := t.method.toUpper } else t

/-- The case loop of `AddFromString`: add cases one by one; on a duplicate
the error is returned with the cases added so far kept (the Go receiver
was already mutated). -/
def addCasesLoop (plan : TestPlan) :
    List (String × TestCase) → TestPlan × Option GoErr
  | [] => (plan, none)
  | (n, tc) :: rest =>
    match plan.Add n (tc.map upperTest) with
    | .error e => (plan, some e)
    | .ok p' => addCasesLoop p' rest

/-- `TestPlan.AddFromString` (dsl.go). The YAML unmarshaling is external;
a chunk is modelled post-unmarshal as `Option` of the name → case mapping,
`none` standing for an unmarshal failure. -/
def TestPlan.AddFromString (plan : TestPlan)
    (doc : Option (List (String × TestCase))) : TestPlan × Option GoErr :=
  match doc with
  | none => (plan, some (.plain "yaml unmarshal error"))
  | some caseMap => addCasesLoop plan caseMap

/-- `TestPlan.InitFromFile` (dsl.go) after a successful file read: the plan
is reset, each `---`-separated chunk is fed to `AddFromString`, whose
returned error is discarded (`plan.AddFromString(chunk)` drops it), and
the function returns nil unconditionally. -/
def TestPlan.InitFromChunks (chunks : List (Option (List (String × TestCase)))) :
    Except GoErr TestPlan :=
  .ok (chunks.foldl (fun plan doc => (plan.AddFromString doc).1) ⟨[], []⟩)

/-- The association-isolation invariant (§3): no entry of a collection
records an association under the collection's own class name. -/
def AssocInvariant {π : Type} (db : DB π) : Prop :=
  ∀ kv ∈ db.schemas, ∀ e ∈ kv.2.objects, lookupKey e.associations kv.1 = none

/-- The stores reachable through the store's operations: initialisation
from a document, insert, delete, update, and schema cloning (`Find` and
`GetSchema` do not change the store). -/
inductive Reachable {π : Type} : DB π → Prop where
  | init (sw : Swagger π) : Reachable (DB.Init sw)
  | insert (db : DB π) (name : String) (obj : JsonValue) (assoc : AssocMap)
      (h : Reachable db) : Reachable (DB.Insert db name obj assoc).2
  | delete (db : DB π) (name : String) (criteria : JsonValue) (assoc : AssocMap)
      (matchFn : MatchFunc) (desiredCount : Int) (h : Reachable db) :
      Reachable (DB.Delete db name criteria assoc matchFn desiredCount).2
  | update (db : DB π) (name : String) (criteria : JsonValue) (assoc : AssocMap)
      (matchFn : MatchFunc) (newObj : JsonMap) (desiredCount : Int) (patch : Bool)
      (h : Reachable db) :
      Reachable (DB.Update db name criteria assoc matchFn newObj desiredCount patch).2
  | clone (db : DB π) (h : Reachable db) : Reachable db.CloneSchema

/-- A visitor that counts how often `Iterate` visits the schema registered
under `target` (referents are handed to the visitor with their name). -/
def countVisits (target : String) : String → SchemaRef → Nat → Except GoErr Nat :=
  fun nm _ n => .ok (if nm = target then n + 1 else n)

/-- The first declared parameter not already supplied on a test — the one
`ResolveParameters`' loop generates before returning. -/
def firstMissing (ps : List Parameter) (supplied : List (String × JsonValue)) :
    Option Parameter :=
  match ps with
  | [] => none
  | p :: rest =>
    if (lookupKey supplied p.name).isSome then firstMissing rest supplied
    else some p

/-- The generator's `MinLength` as the schema's `uint64` field. -/
def cvMinLen (cv : CommonValidations) : Nat :=
  match cv.minLength with
  | some n => n.toNat
  | none => 0

/-- The generator's `MaxLength` as the schema's optional `uint64` field. -/
def cvMaxLen (cv : CommonValidations) : Option Nat := cv.maxLength.map Int.toNat

/-- Modelled from the spec: the schema denoted by an array parameter's
`Items` definition, for stating the round-trip property (§8). -/
def itemsToSchema : SimpleItems → SchemaRef
  | .mk ty fm cvv its =>
    .mk "" ty fm "" cvv.pattern (cvMinLen cvv) (cvMaxLen cvv) cvv.minimum cvv.maximum
      [] [] []
      (match its with
       | some it => some (itemsToSchema it)
       | none => none)

/-- Modelled from the spec: the schema a parameter definition denotes —
its declared type, format and constraints transcribed into a schema node.
§8 states the round-trip property as "for any object generated by
ValueGenerator against schema S, `SchemaGraph.Matches(S, object)` must be
true"; the ValueGenerator consumes parameter definitions, so this is the
translation that gives the claim its `S`. -/
def paramToSchema (p : Parameter) : SchemaRef :=
  .mk "" p.simple.type p.simple.format "" p.cv.pattern (cvMinLen p.cv) (cvMaxLen p.cv)
    p.cv.minimum p.cv.maximum [] [] [] (p.simple.items.map itemsToSchema)

/-- How many of the object's fields the property table recognizes. -/
def recognizedCount (props : List (String × SchemaRef)) (fields : JsonMap) : Nat :=
  (fields.filter (fun kv => (lookupKey props kv.1).isSome)).length

/-- Whether a field either is unrecognized or parses against its declared
property schema (the per-field hypothesis of the threshold property). -/
def fieldParses {π : Type} (fuel : Nat) (sw : Swagger π) (rm : String → String → Bool)
    (props : List (String × SchemaRef)) (followRef : Bool)
    (kv : String × JsonValue) : Bool :=
  match lookupKey props kv.1 with
  | some psch => exceptOk (SchemaRef.Parses fuel sw rm "" psch kv.2 followRef)
  | none => true

/-- A member schema that is a plain property table: no reference, no
nested composite. -/
def plainMember (s : SchemaRef) : Bool :=
  s.ref == "" && s.allOf.isEmpty

/-- Whether a composite member either has no properties (and is skipped by
the member loop) or accepts the subset of the object's fields it
recognizes (the per-member hypothesis of the threshold property). -/
def memberSubsetParses {π : Type} (fuel : Nat) (sw : Swagger π)
    (rm : String → String → Bool) (fields : JsonMap) (followRef : Bool)
    (s : SchemaRef) : Bool :=
  s.properties.isEmpty ||
    exceptOk (SchemaRef.Parses fuel sw rm "" s
      (.vobj (fields.filter (fun kv => (lookupKey s.properties kv.1).isSome))) followRef)

/-- The total recognized-field count of a composite, with multiplicity: a
field recognized by several members is counted once per member, exactly as
the Go member loop increments its counter. -/
def compositeCount (members : List SchemaRef) (fields : JsonMap) : Nat :=
  (members.map (fun s => recognizedCount s.properties fields)).sum

/-- An object-kind schema: a property table plus required names. -/
def mkObjSchema (ty : String) (props : List (String × SchemaRef))
    (req : List String) : SchemaRef :=
  .mk "" ty "" "" "" 0 none none none req props [] none

/-- A composite (`AllOf`) schema. -/
def mkAllOfSchema (ty : String) (members : List SchemaRef) : SchemaRef :=
  .mk "" ty "" "" "" 0 none none none [] [] members none

/-- A concrete generator environment for evaluating the model on inputs
(the injected externals return fixed values). -/
def constEnv : GenEnv :=
  { reggenGen := fun _ _ => .ok "x"
    timeFormat := fun _ _ => "1970-01-01T00:00:00Z"
    b64encode := fun s => s
    hexEncode := fun s => s }

/-- An empty swagger document over a trivial paths payload. -/
def swEmpty : Swagger Unit := ⟨[], "", []⟩

/-- A regex matcher that accepts everything (concrete stand-in for the
injected `regexp.MatchString`). -/
def rmTrue : String → String → Bool := fun _ _ => true

/-- A one-schema document registering `"Pet"` (fixture). -/
def swPet : Swagger Unit := ⟨[("Pet", SchemaRef.empty)], "", []⟩

/-- A description carrying a Weak-tagged meqa annotation (fixture). -/
def weakDesc : String := "<meqa Pet.id.weak>"

/-- A Weak-tagged object schema (fixture). -/
def weakSchema : SchemaRef :=
  .mk "" "object" "" weakDesc "" 0 none none none [] [] [] none

/-- A reference node pointing at the schema named `"A"` (fixture). -/
def refNodeA : SchemaRef :=
  .mk "A" "" "" "" "" 0 none none none [] [] [] none

/-- A document whose schema `"A"` is Weak-tagged (fixture). -/
def swWeak : Swagger Unit := ⟨[("A", weakSchema)], "", []⟩

/-- An object schema whose property refers to `"A"` — combined with
`swWeak`, a schema graph with a Weak-tagged (self-)reference (fixture). -/
def selfRefSchema : SchemaRef :=
  .mk "" "object" "" "" "" 0 none none none [] [("self", refNodeA)] [] none

/-- A boolean-typed query parameter (fixture). -/
def pBool : Parameter := { name := "p", simple := { type := "boolean" } }

/-- A parameter with no resolvable type (fixture). -/
def pNoType : Parameter := { name := "q" }

/-- An integer-typed enum parameter (fixture for the round-trip claim). -/
def pEnumInt : Parameter :=
  { name := "status", simple := { type := "integer" }, cv := { enum := [.vint 1] } }

/-- A document registering GET `/x` with one boolean parameter (fixture). -/
def swResolve : Swagger PathItem := ⟨[], "", [("/x", { get := some ⟨[pBool]⟩ })]⟩

/-- A document registering GET `/x` with one untyped parameter (fixture). -/
def swBad : Swagger PathItem := ⟨[], "", [("/x", { get := some ⟨[pNoType]⟩ })]⟩

/-- A GET test step against `/x` with no supplied parameters (fixture). -/
def tGet : Test := { path := "/x", method := "GET" }

/-- A GET test against `/x` whose parameters map is present but empty
(a `parameters` key with no entries in the YAML) (fixture). -/
def tGetP : Test := { path := "/x", method := "GET", parameters := some [] }

/-- Property table recognizing fields `a`, `b`, `c` (fixture). -/
def objPropsW : List (String × SchemaRef) :=
  [("a", primSchema "string"), ("b", primSchema "string"), ("c", primSchema "string")]

/-- An object with three recognized fields and one unrecognized field —
the `4k = 3n` success boundary (fixture). -/
def objFieldsW : JsonMap :=
  [("a", .vnull), ("b", .vnull), ("c", .vnull), ("x", .vnull)]

/-- Two plain composite members jointly recognizing `a`, `b`, `c`
(fixture). -/
def membersW : List SchemaRef :=
  [mkObjSchema "" [("a", primSchema "string"), ("b", primSchema "string")] [],
   mkObjSchema "" [("c", primSchema "string")] []]

/-! ## Shared lemmas about the map model -/

theorem lookupKey_mapSet_self {α : Type} (l : List (String × α)) (k : String) (v : α) :
    lookupKey (mapSet l k v) k = some v := by
  induction l with
  | nil => simp [mapSet, lookupKey]
  | cons hd tl ih =>
    obtain ⟨k', v'⟩ := hd
    by_cases h : k' = k
    · simp [mapSet, h, lookupKey]
    · simp [mapSet, h, lookupKey, ih]

theorem lookupKey_mapSet_ne {α : Type} (l : List (String × α)) (k k' : String) (v : α)
    (h : k' ≠ k) : lookupKey (mapSet l k v) k' = lookupKey l k' := by
  have hk : ¬ k = k' := fun hh => h hh.symm
  induction l with
  | nil => simp [mapSet, lookupKey, hk]
  | cons hd tl ih =>
    obtain ⟨k0, v0⟩ := hd
    by_cases h0 : k0 = k
    · subst h0
      simp [mapSet, lookupKey, hk]
    · simp only [mapSet, if_neg h0, lookupKey]
      by_cases h1 : k0 = k'
      · simp [h1]
      · simp [h1, ih]

theorem lookupKey_some_mem {α : Type} (l : List (String × α)) (k : String) (v : α)
    (h : lookupKey l k = some v) : (k, v) ∈ l := by
  induction l with
  | nil => simp [lookupKey] at h
  | cons hd tl ih =>
    obtain ⟨k0, v0⟩ := hd
    by_cases h0 : k0 = k
    · subst h0
      simp [lookupKey] at h
      simp [h]
    · simp only [lookupKey, if_neg h0] at h
      exact List.mem_cons_of_mem _ (ih h)

theorem mem_mapSet {α : Type} (l : List (String × α)) (k : String) (v : α)
    (x : String × α) (h : x ∈ mapSet l k v) : x ∈ l ∨ x = (k, v) := by
  induction l with
  | nil => simp [mapSet] at h; simp [h]
  | cons hd tl ih =>
    obtain ⟨k0, v0⟩ := hd
    by_cases h0 : k0 = k
    · simp only [mapSet, if_pos h0] at h
      rcases List.mem_cons.mp h with h1 | h1
      · right; exact h1
      · left; exact List.mem_cons_of_mem _ h1
    · simp only [mapSet, if_neg h0] at h
      rcases List.mem_cons.mp h with h1 | h1
      · left; simp [h1]
      · rcases ih h1 with h2 | h2
        · left; exact List.mem_cons_of_mem _ h2
        · right; exact h2

theorem lookupKey_copyWithoutClass (assoc : AssocMap) (name : String) :
    lookupKey (CopyWithoutClass assoc name) name = none := by
  induction assoc with
  | nil => rfl
  | cons hd tl ih =>
    obtain ⟨k, v⟩ := hd
    by_cases h : k = name
    · simpa [CopyWithoutClass, h] using ih
    · simpa [CopyWithoutClass, h, lookupKey] using ih

/-! ## C10 — unknown schema name on Find/Delete/Update -/

/-- C10: for every schema name not registered in the store, `DB.Find`
returns the empty result, `DB.Delete` returns 0, and `DB.Update` returns
0, each leaving the store unchanged and raising no error (their result
types carry no error channel), while `DB.Insert` alone reports the
unknown name as an error and also leaves the store unchanged. -/
theorem unknownName_find_delete_update_noop {π : Type} (db : DB π) (name : String)
    (criteria : JsonValue) (assoc : AssocMap) (matchFn : MatchFunc)
    (desiredCount : Int) (newObj : JsonMap) (patch : Bool) (obj : JsonValue)
    (h : lookupKey db.schemas name = none) :
    DB.Find db name criteria assoc matchFn desiredCount = [] ∧
    DB.Delete db name criteria assoc matchFn desiredCount = (0, db) ∧
    DB.Update db name criteria assoc matchFn newObj desiredCount patch = (0, db) ∧
    (DB.Insert db name obj assoc).1 =
      some (.err .internal ("inserting into non-existing schema: " ++ name)) ∧
    (DB.Insert db name obj assoc).2 = db := by
  refine ⟨?_, ?_, ?_, ?_, ?_⟩ <;> simp [DB.Find, DB.Delete, DB.Update, DB.Insert, h]

/-- Witness for C10 at a concrete store lacking the name `"Pet"`. -/
theorem unknownName_find_delete_update_noop_witness :
    DB.Find (DB.Init swEmpty) "Pet" .vnull [] MatchAlways (-1) = [] ∧
    DB.Delete (DB.Init swEmpty) "Pet" .vnull [] MatchAlways (-1) = (0, DB.Init swEmpty) ∧
    DB.Update (DB.Init swEmpty) "Pet" .vnull [] MatchAlways [] (-1) true = (0, DB.Init swEmpty) ∧
    (DB.Insert (DB.Init swEmpty) "Pet" (.vobj []) []).1 =
      some (.err .internal ("inserting into non-existing schema: " ++ "Pet")) ∧
    (DB.Insert (DB.Init swEmpty) "Pet" (.vobj []) []).2 = DB.Init swEmpty :=
  unknownName_find_delete_update_noop (DB.Init swEmpty) "Pet" .vnull [] MatchAlways
    (-1) [] true (.vobj []) rfl

/-! ## C6 — unknown class on Insert -/

/-- C6 counterexample: inserting under an unregistered class name fails
with an *Internal*-kind error (`mqutil.ErrInternal` at db.go:464), not the
NotFound-kind error the claim states. -/
theorem insertUnknown_internal_counterexample :
    (DB.Insert (DB.Init swEmpty) "Pet" (.vobj []) []).1 =
      some (.err .internal "inserting into non-existing schema: Pet") ∧
    ErrKind.internal ≠ ErrKind.notFound := by
  exact ⟨rfl, by decide⟩

/-- C6 amended: for every class name not registered in the store,
`DB.Insert` fails with an Internal-kind error and the store is left
unchanged. -/
theorem insertUnknown_internal {π : Type} (db : DB π) (name : String)
    (obj : JsonValue) (assoc : AssocMap) (h : lookupKey db.schemas name = none) :
    DB.Insert db name obj assoc =
      (some (.err .internal ("inserting into non-existing schema: " ++ name)), db) := by
  simp [DB.Insert, h]

/-- Witness for the amended C6 at a concrete store. -/
theorem insertUnknown_internal_witness :
    DB.Insert (DB.Init swEmpty) "Pet" (.vobj []) [] =
      (some (.err .internal ("inserting into non-existing schema: " ++ "Pet")),
        DB.Init swEmpty) :=
  insertUnknown_internal (DB.Init swEmpty) "Pet" (.vobj []) [] rfl

/-! ## C5 — conflicting numeric bounds -/

/-- C5: the "both are present but conflicting" Invalid-error branch of
`generateFloat` is dead code. When both bounds are declared and the
effective minimum is at least the effective maximum, the preceding
`Minimum != nil` arm rewrites `realmax` to `realmin + |realmin|` and the
generator *succeeds* — here `{min: 5, max: 3}` yields a value in `[5, 10)`
instead of the Invalid-kind error the claim (and the spec) state. The
second conjunct shows the error branch is unreachable for every input:
`generateFloat` never returns an error at all. -/
theorem generateFloat_conflicting_bounds_succeeds :
    generateFloat { minimum := some 5, maximum := some 3 } [.rfloat (1/2)] =
      .ok (15/2, []) ∧
    ∀ (v : CommonValidations) (rs : RStream), exceptOk (generateFloat v rs) = true := by
  constructor
  · simp only [generateFloat, drawFloat]
    norm_num
    simp
    norm_num
  · intro v rs
    rcases hdf : drawFloat rs with ⟨q, rs2⟩
    rcases hmn : v.minimum with _ | m <;> rcases hmx : v.maximum with _ | M <;>
      simp only [generateFloat, hmn, hmx, hdf] <;>
      split_ifs <;> simp_all [exceptOk]

/-! ## C8 — body-schema parameters -/

/-- C8 counterexample: a parameter carrying a body schema reaches
`generateBySchema`, which executes `panic("not implemented")` — a crash
(modelled by `GoErr.panicked`), not a returned "not implemented" error
value as the claim states. -/
theorem generateParameter_bodySchema_panics_counterexample :
    generateParameter constEnv { schema := some SchemaRef.empty } [] =
      .error (.panicked "not implemented") := rfl

/-- C8 amended: for every parameter definition that names a body schema,
parameter generation panics with "not implemented" (it neither succeeds
nor returns an error value). -/
theorem generateParameter_bodySchema_panics (env : GenEnv) (p : Parameter)
    (rs : RStream) (s : SchemaRef) (h : p.schema = some s) :
    generateParameter env p rs = .error (.panicked "not implemented") := by
  simp [generateParameter, h, generateBySchema]

/-- Witness for the amended C8. -/
theorem generateParameter_bodySchema_panics_witness :
    generateParameter constEnv { schema := some SchemaRef.empty } [.rint 3] =
      .error (.panicked "not implemented") :=
  generateParameter_bodySchema_panics constEnv { schema := some SchemaRef.empty }
    [.rint 3] SchemaRef.empty rfl

/-! ## C7 — duplicate case names in a plan -/

/-- C7 counterexample: a plan of two documents that both define the case
`"a"` loads *successfully* (`InitFromFile` discards the error returned by
`AddFromString` and returns nil unconditionally), and the first case is
present in the plan afterwards — the claim states loading must fail with
neither case present. -/
theorem initFromChunks_duplicate_counterexample :
    TestPlan.InitFromChunks
        [some [("a", [])], some [("a", [{ name := "t" }])]] =
      .ok ⟨[("a", [])], [[]]⟩ := rfl

/-- C7 amended: loading a plan whose two documents define cases with the
same name succeeds; the first case is kept in the plan and the duplicate
is rejected by `TestPlan.Add` (whose error `InitFromFile` discards). -/
theorem initFromChunks_duplicate (name : String) (tc1 tc2 : TestCase) :
    TestPlan.InitFromChunks [some [(name, tc1)], some [(name, tc2)]] =
      .ok ⟨[(name, tc1.map upperTest)], [tc1.map upperTest]⟩ := by
  simp [TestPlan.InitFromChunks, TestPlan.AddFromString, addCasesLoop, TestPlan.Add,
    lookupKey, mapSet]

/-! ## C3 — association isolation -/

theorem getD_mem_or_eq {α : Type} (l : List α) (n : Nat) (d : α) :
    l.getD n d ∈ l ∨ l.getD n d = d := by
  rcases h : l[n]? with _ | x
  · right; simp [List.getD_eq_getElem?_getD, h]
  · left
    have hx : x ∈ l := List.getElem?_mem h
    simpa [List.getD_eq_getElem?_getD, h] using hx

theorem deleteScan_mem (p : DBEntry → Bool) (d : Int) :
    ∀ (n i c : Nat) (l : List DBEntry), l.length - i ≤ n →
      ∀ e ∈ (deleteScan p d i c l).2, e ∈ l := by
  intro n
  induction n with
  | zero =>
    intro i c l hle e he
    rw [deleteScan] at he
    have hni : ¬ i < l.length := by omega
    simp only [dif_neg hni] at he
    exact he
  | succ n ih =>
    intro i c l hle e he
    rw [deleteScan] at he
    by_cases h : i < l.length
    · simp only [dif_pos h] at he
      by_cases hp : p (l.get ⟨i, h⟩)
      · simp only [if_pos hp] at he
        by_cases hstop : 0 ≤ d ∧ d ≤ ((c + 1 : Nat) : Int)
        · simp only [if_pos hstop] at he
          rcases List.mem_or_eq_of_mem_set he with h1 | h1
          · exact h1
          · rcases getD_mem_or_eq l c (l.get ⟨i, h⟩) with h2 | h2
            · exact h1 ▸ h2
            · rw [h1, h2]; exact List.get_mem l _ _
        · simp only [if_neg hstop] at he
          have hlen : (l.set i (l.getD c (l.get ⟨i, h⟩))).length - (i + 1) ≤ n := by
            simp only [List.length_set]; omega
          have hm := ih (i + 1) (c + 1) _ hlen e he
          rcases List.mem_or_eq_of_mem_set hm with h1 | h1
          · exact h1
          · rcases getD_mem_or_eq l c (l.get ⟨i, h⟩) with h2 | h2
            · exact h1 ▸ h2
            · rw [h1, h2]; exact List.get_mem l _ _
      · simp only [if_neg hp] at he
        exact ih (i + 1) c l (by omega) e he
    · simp only [dif_neg h] at he
      exact he

theorem updateScan_assoc (p : DBEntry → Bool) (no : JsonMap) (pa : Bool) (d : Int) :
    ∀ (l : List DBEntry) (c : Nat), ∀ e ∈ (updateScan p no pa d l c).2,
      ∃ e0 ∈ l, e.associations = e0.associations := by
  intro l
  induction l with
  | nil => intro c e he; simp [updateScan] at he
  | cons hd tl ih =>
    intro c e he
    by_cases hp : p hd
    · by_cases hstop : 0 ≤ d ∧ d ≤ ((c + 1 : Nat) : Int)
      · simp only [updateScan, if_pos hp, if_pos hstop] at he
        rcases List.mem_cons.mp he with h1 | h1
        · exact ⟨hd, List.mem_cons_self _ _, by rw [h1]⟩
        · exact ⟨e, List.mem_cons_of_mem _ h1, rfl⟩
      · simp only [updateScan, if_pos hp, if_neg hstop] at he
        rcases List.mem_cons.mp he with h1 | h1
        · exact ⟨hd, List.mem_cons_self _ _, by rw [h1]⟩
        · obtain ⟨e0, he0, heq⟩ := ih (c + 1) e h1
          exact ⟨e0, List.mem_cons_of_mem _ he0, heq⟩
    · simp only [updateScan, if_neg hp] at he
      rcases List.mem_cons.mp he with h1 | h1
      · exact ⟨e, by rw [h1]; exact List.mem_cons_self _ _, by rw [h1]⟩
      · obtain ⟨e0, he0, heq⟩ := ih c e h1
        exact ⟨e0, List.mem_cons_of_mem _ he0, heq⟩

theorem mapSet_lookup_self {α : Type} (l : List (String × α)) (k : String) (v : α)
    (h : lookupKey l k = some v) : mapSet l k v = l := by
  induction l with
  | nil => simp [lookupKey] at h
  | cons hd tl ih =>
    obtain ⟨k0, v0⟩ := hd
    by_cases h0 : k0 = k
    · subst h0
      have hv : v0 = v := by simpa [lookupKey] using h
      subst hv
      simp [mapSet]
    · simp only [lookupKey, if_neg h0] at h
      simp [mapSet, h0, ih h]

theorem init_empty_objects {π : Type} (sw : Swagger π) :
    ∀ kv ∈ (DB.Init sw).schemas, kv.2.objects = [] := by
  have key : ∀ (l : List (String × SchemaRef)) (acc : List (String × SchemaDB)),
      (∀ kv ∈ acc, kv.2.objects = []) →
      ∀ kv ∈ l.foldl (fun m kv2 => mapSet m kv2.1 ⟨kv2.1, kv2.2, false, []⟩) acc,
        kv.2.objects = [] := by
    intro l
    induction l with
    | nil => intro acc hacc kv hkv; exact hacc kv hkv
    | cons hd tl ih =>
      intro acc hacc kv hkv
      refine ih _ ?_ kv hkv
      intro kv2 hkv2
      rcases mem_mapSet _ _ _ _ hkv2 with h1 | h1
      · exact hacc kv2 h1
      · rw [h1]
  intro kv hkv
  exact key sw.schemas [] (by simp) kv hkv

theorem init_invariant {π : Type} (sw : Swagger π) : AssocInvariant (DB.Init sw) := by
  intro kv hkv e he
  rw [init_empty_objects sw kv hkv] at he
  simp at he

theorem dbInsert_state_cases {π : Type} (db : DB π) (n : String) (o : JsonValue)
    (a : AssocMap) :
    (DB.Insert db n o a).2 = db ∨
    ∃ sdb m, lookupKey db.schemas n = some sdb ∧ sdb.noHistory = false ∧
      o = .vobj m ∧
      (DB.Insert db n o a).2 =
        { db with schemas :=
            (mapSet db.schemas n
              { sdb with objects := sdb.objects ++ [⟨m, CopyWithoutClass a n⟩] }) } := by
  rcases hlook : lookupKey db.schemas n with _ | sdb
  · left; simp [DB.Insert, hlook]
  · cases hnh : sdb.noHistory
    · cases o
      case vobj m =>
        right
        exact ⟨sdb, m, rfl, hnh, rfl, by simp [DB.Insert, hlook, SchemaDB.Insert, hnh]⟩
      all_goals left
      all_goals simp [DB.Insert, hlook, SchemaDB.Insert, hnh]
    · left
      simp [DB.Insert, hlook, SchemaDB.Insert, hnh,
        mapSet_lookup_self db.schemas n sdb hlook]

theorem insert_preserves {π : Type} (db : DB π) (n : String) (o : JsonValue)
    (a : AssocMap) (h : AssocInvariant db) : AssocInvariant (DB.Insert db n o a).2 := by
  rcases dbInsert_state_cases db n o a with h1 | ⟨sdb, m, hlook, hnh, ho, h1⟩
  · rw [h1]; exact h
  · rw [h1]
    intro kv hkv e he
    rcases mem_mapSet _ _ _ _ hkv with h2 | h2
    · exact h kv h2 e he
    · rw [h2] at he ⊢
      simp only at he
      rcases List.mem_append.mp he with hl | hr
      · exact h (n, sdb) (lookupKey_some_mem _ _ _ hlook) e hl
      · simp only [List.mem_singleton] at hr
        rw [hr]
        exact lookupKey_copyWithoutClass a n

theorem delete_preserves {π : Type} (db : DB π) (n : String) (criteria : JsonValue)
    (a : AssocMap) (mf : MatchFunc) (k : Int) (h : AssocInvariant db) :
    AssocInvariant (DB.Delete db n criteria a mf k).2 := by
  rcases hlook : lookupKey db.schemas n with _ | sdb
  · simp only [DB.Delete, hlook]; exact h
  · simp only [DB.Delete, hlook, SchemaDB.Delete]
    intro kv hkv e he
    rcases mem_mapSet _ _ _ _ hkv with h2 | h2
    · exact h kv h2 e he
    · rw [h2] at he ⊢
      simp only at he
      have he2 : e ∈ sdb.objects := by
        have hdrop := List.mem_of_mem_drop he
        exact deleteScan_mem _ _ sdb.objects.length 0 0 sdb.objects (by omega) e hdrop
      exact h (n, sdb) (lookupKey_some_mem _ _ _ hlook) e he2

theorem update_preserves {π : Type} (db : DB π) (n : String) (criteria : JsonValue)
    (a : AssocMap) (mf : MatchFunc) (no : JsonMap) (k : Int) (pa : Bool)
    (h : AssocInvariant db) :
    AssocInvariant (DB.Update db n criteria a mf no k pa).2 := by
  rcases hlook : lookupKey db.schemas n with _ | sdb
  · simp only [DB.Update, hlook]; exact h
  · simp only [DB.Update, hlook, SchemaDB.Update]
    intro kv hkv e he
    rcases mem_mapSet _ _ _ _ hkv with h2 | h2
    · exact h kv h2 e he
    · rw [h2] at he ⊢
      simp only at he
      obtain ⟨e0, he0, heq⟩ := updateScan_assoc _ no pa k sdb.objects 0 e he
      rw [heq]
      exact h (n, sdb) (lookupKey_some_mem _ _ _ hlook) e0 he0

theorem clone_preserves {π : Type} (db : DB π) (_h : AssocInvariant db) :
    AssocInvariant db.CloneSchema := by
  intro kv hkv e he
  simp only [DB.CloneSchema] at hkv
  rcases List.mem_map.mp hkv with ⟨kv0, _, hmap⟩
  rw [← hmap] at he
  simp [SchemaDB.CloneSchema] at he

theorem reachable_invariant {π : Type} (db : DB π) (h : Reachable db) :
    AssocInvariant db := by
  induction h with
  | init sw => exact init_invariant sw
  | insert db n o a _ ih => exact insert_preserves db n o a ih
  | delete db n c a mf k _ ih => exact delete_preserves db n c a mf k ih
  | update db n c a mf no k pa _ ih => exact update_preserves db n c a mf no k pa ih
  | clone db _ ih => exact clone_preserves db ih

/-- C3: inserting under class `A` stores the entry with the association
keyed by `A` stripped (`CopyWithoutClass`), so the stored entry's
association map does not contain key `A`; and every store reachable
through the store's operations satisfies the invariant that no entry of a
collection records an association under the collection's own class name. -/
theorem dbInsert_association_isolation {π : Type} :
    (∀ (db : DB π) (A : String) (obj : JsonValue) (assoc : AssocMap)
        (sdb : SchemaDB) (m : JsonMap),
        (lookupKey assoc A).isSome = true →
        lookupKey db.schemas A = some sdb →
        sdb.noHistory = false →
        obj = .vobj m →
        (DB.Insert db A obj assoc).2.schemas =
          mapSet db.schemas A
            { sdb with objects := sdb.objects ++ [⟨m, CopyWithoutClass assoc A⟩] } ∧
        lookupKey (CopyWithoutClass assoc A) A = none) ∧
    (∀ db : DB π, Reachable db → AssocInvariant db) := by
  constructor
  · intro db A obj assoc sdb m _ hlook hnh ho
    subst ho
    refine ⟨?_, lookupKey_copyWithoutClass assoc A⟩
    simp [DB.Insert, hlook, SchemaDB.Insert, hnh]
  · intro db h
    exact reachable_invariant db h

/-- Witness for C3 at a concrete store and insert. -/
theorem dbInsert_association_isolation_witness :
    ((DB.Insert (DB.Init swPet) "Pet" (.vobj []) [("Pet", [])]).2.schemas =
        mapSet (DB.Init swPet).schemas "Pet"
          { (⟨"Pet", SchemaRef.empty, false, []⟩ : SchemaDB) with
              objects := ([] : List DBEntry) ++ [⟨[], CopyWithoutClass [("Pet", [])] "Pet"⟩] } ∧
      lookupKey (CopyWithoutClass [("Pet", [])] "Pet") "Pet" = none) ∧
    AssocInvariant (DB.Insert (DB.Init swPet) "Pet" (.vobj []) [("Pet", [])]).2 :=
  ⟨(@dbInsert_association_isolation Unit).1 (DB.Init swPet) "Pet" (.vobj [])
      [("Pet", [])] ⟨"Pet", SchemaRef.empty, false, []⟩ [] rfl rfl rfl rfl,
    (@dbInsert_association_isolation Unit).2 _
      (Reachable.insert _ _ _ _ (Reachable.init swPet))⟩

/-! ## C4 — Weak-edge skip in Iterate -/

set_option maxHeartbeats 2000000 in
theorem Iterate_mk {π σ : Type} (sw : Swagger π)
    (f : String → SchemaRef → σ → Except GoErr σ) (fw : Bool)
    (ref ty fmt desc pat : String) (minL : Nat) (maxL : Option Nat)
    (mn mx : Option Rat) (req : List String)
    (props : List (String × SchemaRef)) (allOf : List SchemaRef)
    (items : Option SchemaRef) (ctx : σ) :
    SchemaRef.Iterate sw f fw
        (.mk ref ty fmt desc pat minL maxL mn mx req props allOf items) ctx =
      (if weakTagged desc && !fw then .ok ctx
       else
        match f "" (.mk ref ty fmt desc pat minL maxL mn mx req props allOf items) ctx with
        | .error e => .error e
        | .ok ctx =>
          if allOf.length > 0 then SchemaRef.IterateAllOf sw f fw allOf ctx
          else
            match sw.GetReferredSchema
                (.mk ref ty fmt desc pat minL maxL mn mx req props allOf items) with
            | .error e => .error e
            | .ok (some (refName, referred)) =>
              if weakTagged referred.description && !fw then .ok ctx
              else f refName referred ctx
            | .ok none =>
              exceptStep (if strContains ty "object"
                          then SchemaRef.IterateProps sw f fw props ctx
                          else .ok ctx)
                (fun ctx =>
                  if strContains ty "array" then
                    match items with
                    | none => .error (.panicked "nil Items dereference")
                    | some itemSchema => SchemaRef.Iterate sw f fw itemSchema ctx
                  else .ok ctx)) := by
  rw [SchemaRef.Iterate]

set_option maxHeartbeats 2000000 in
theorem IterateAllOf_nil {π σ : Type} (sw : Swagger π)
    (f : String → SchemaRef → σ → Except GoErr σ) (fw : Bool) (ctx : σ) :
    SchemaRef.IterateAllOf sw f fw [] ctx = .ok ctx := by
  rw [SchemaRef.IterateAllOf]

set_option maxHeartbeats 2000000 in
theorem IterateAllOf_cons {π σ : Type} (sw : Swagger π)
    (f : String → SchemaRef → σ → Except GoErr σ) (fw : Bool)
    (s : SchemaRef) (rest : List SchemaRef) (ctx : σ) :
    SchemaRef.IterateAllOf sw f fw (s :: rest) ctx =
      exceptStep (SchemaRef.Iterate sw f fw s ctx)
        (fun ctx => SchemaRef.IterateAllOf sw f fw rest ctx) := by
  rw [SchemaRef.IterateAllOf]

set_option maxHeartbeats 2000000 in
theorem IterateProps_nil {π σ : Type} (sw : Swagger π)
    (f : String → SchemaRef → σ → Except GoErr σ) (fw : Bool) (ctx : σ) :
    SchemaRef.IterateProps sw f fw [] ctx = .ok ctx := by
  rw [SchemaRef.IterateProps]

set_option maxHeartbeats 2000000 in
theorem IterateProps_cons {π σ : Type} (sw : Swagger π)
    (f : String → SchemaRef → σ → Except GoErr σ) (fw : Bool)
    (k : String) (v : SchemaRef) (rest : List (String × SchemaRef)) (ctx : σ) :
    SchemaRef.IterateProps sw f fw ((k, v) :: rest) ctx =
      exceptStep (SchemaRef.Iterate sw f fw v ctx)
        (fun ctx => SchemaRef.IterateProps sw f fw rest ctx) := by
  rw [SchemaRef.IterateProps]

theorem iterate_weak_root_skip {π σ : Type} (sw : Swagger π)
    (f : String → SchemaRef → σ → Except GoErr σ) (s : SchemaRef) (ctx : σ)
    (h : weakTagged s.description = true) :
    SchemaRef.Iterate sw f false s ctx = .ok ctx := by
  cases s with
  | mk ref ty fmt desc pat minL maxL mn mx req props allOf items =>
    simp only [SchemaRef.description] at h
    have hc : (weakTagged desc && !false) = true := by rw [h]; rfl
    rw [Iterate_mk, if_pos hc]

theorem iterateCountAux {π : Type} (sw : Swagger π) (target : String) (t : SchemaRef)
    (ht : target ≠ "") (hlook : lookupKey sw.schemas target = some t)
    (hw : weakTagged t.description = true) :
    ∀ n : Nat,
      (∀ s : SchemaRef, sizeOf s ≤ n → ∀ ctx : Nat,
        SchemaRef.Iterate sw (countVisits target) false s ctx = .ok ctx ∨
        ∃ e, SchemaRef.Iterate sw (countVisits target) false s ctx = .error e) ∧
      (∀ l : List SchemaRef, sizeOf l ≤ n → ∀ ctx : Nat,
        SchemaRef.IterateAllOf sw (countVisits target) false l ctx = .ok ctx ∨
        ∃ e, SchemaRef.IterateAllOf sw (countVisits target) false l ctx = .error e) ∧
      (∀ pl : List (String × SchemaRef), sizeOf pl ≤ n → ∀ ctx : Nat,
        SchemaRef.IterateProps sw (countVisits target) false pl ctx = .ok ctx ∨
        ∃ e, SchemaRef.IterateProps sw (countVisits target) false pl ctx = .error e) := by
  intro n
  induction n using Nat.strong_induction_on with
  | _ n ih =>
    refine ⟨?_, ?_, ?_⟩
    · intro s hs ctx
      cases s with
      | mk ref ty fmt desc pat minL maxL mn mx req props allOf items =>
        rw [Iterate_mk]
        cases hwd : weakTagged desc with
        | true => left; rw [if_pos (show (true && !false) = true from rfl)]
        | false =>
          rw [if_neg (show ¬ ((false && !false) = true) by decide)]
          have hcv : countVisits target ""
              (SchemaRef.mk ref ty fmt desc pat minL maxL mn mx req props allOf items) ctx =
              .ok ctx := by
            simp only [countVisits,
              if_neg (show ¬ ("" = target) from fun hh => ht hh.symm)]
          simp only [hcv]
          by_cases hao : allOf.length > 0
          · rw [if_pos hao]
            have hlt : sizeOf allOf <
                sizeOf (SchemaRef.mk ref ty fmt desc pat minL maxL mn mx req props allOf items) := by
              simp only [SchemaRef.mk.sizeOf_spec]; omega
            exact (ih (sizeOf allOf) (by omega)).2.1 allOf le_rfl ctx
          · rw [if_neg hao]
            by_cases href : ref = ""
            · have hG : sw.GetReferredSchema
                  (SchemaRef.mk ref ty fmt desc pat minL maxL mn mx req props allOf items) =
                  .ok none := by
                simp only [Swagger.GetReferredSchema, SchemaRef.ref, if_pos href]
              simp only [hG]
              have hlt : sizeOf props <
                  sizeOf (SchemaRef.mk ref ty fmt desc pat minL maxL mn mx req props allOf items) := by
                simp only [SchemaRef.mk.sizeOf_spec]; omega
              have harrStep : ∀ ctx2 : Nat,
                  ((if strContains ty "array" then
                      match items with
                      | none => Except.error (.panicked "nil Items dereference")
                      | some itemSchema =>
                        SchemaRef.Iterate sw (countVisits target) false itemSchema ctx2
                    else Except.ok ctx2) = Except.ok ctx2) ∨
                  (∃ e, (if strContains ty "array" then
                      match items with
                      | none => Except.error (.panicked "nil Items dereference")
                      | some itemSchema =>
                        SchemaRef.Iterate sw (countVisits target) false itemSchema ctx2
                    else Except.ok ctx2) = Except.error e) := by
                intro ctx2
                by_cases harr : strContains ty "array"
                · rw [if_pos harr]
                  cases items with
                  | none => right; exact ⟨_, rfl⟩
                  | some it =>
                    have hlt2 : sizeOf it <
                        sizeOf (SchemaRef.mk ref ty fmt desc pat minL maxL mn mx req props allOf
                          (some it)) := by
                      simp only [SchemaRef.mk.sizeOf_spec, Option.some.sizeOf_spec]; omega
                    exact (ih (sizeOf it) (by omega)).1 it le_rfl ctx2
                · left; rw [if_neg harr]
              by_cases hobj : strContains ty "object"
              · rcases (ih (sizeOf props) (by omega)).2.2 props le_rfl ctx with hok | ⟨e, herr⟩
                · rw [if_pos hobj, hok]
                  simp only [exceptStep]
                  exact harrStep ctx
                · right
                  exact ⟨e, by rw [if_pos hobj, herr]; rfl⟩
              · rw [if_neg hobj]
                simp only [exceptStep]
                exact harrStep ctx
            · rcases hlr : lookupKey sw.schemas ref with _ | rf
              · right
                refine ⟨.err .notFound ("schema not found: " ++ ref), ?_⟩
                have hG : sw.GetReferredSchema
                    (SchemaRef.mk ref ty fmt desc pat minL maxL mn mx req props allOf items) =
                    .error (.err .notFound ("schema not found: " ++ ref)) := by
                  simp only [Swagger.GetReferredSchema, SchemaRef.ref, if_neg href, hlr]
                simp only [hG]
              · have hG : sw.GetReferredSchema
                    (SchemaRef.mk ref ty fmt desc pat minL maxL mn mx req props allOf items) =
                    .ok (some (ref, rf)) := by
                  simp only [Swagger.GetReferredSchema, SchemaRef.ref, if_neg href, hlr]
                simp only [hG]
                cases hwrf : weakTagged rf.description with
                | true => left; rw [if_pos (show (true && !false) = true from rfl)]
                | false =>
                  rw [if_neg (show ¬ ((false && !false) = true) by decide)]
                  by_cases hrt : ref = target
                  · exfalso
                    rw [hrt, hlook] at hlr
                    cases hlr
                    rw [hw] at hwrf
                    exact absurd hwrf (by decide)
                  · left
                    simp only [countVisits, if_neg hrt]
    · intro l hs ctx
      cases l with
      | nil => left; exact IterateAllOf_nil sw (countVisits target) false ctx
      | cons s rest =>
        rw [IterateAllOf_cons]
        have hlt1 : sizeOf s < sizeOf (s :: rest) := by
          simp only [List.cons.sizeOf_spec]; omega
        have hlt2 : sizeOf rest < sizeOf (s :: rest) := by
          simp only [List.cons.sizeOf_spec]; omega
        rcases (ih (sizeOf s) (by omega)).1 s le_rfl ctx with hok | ⟨e, herr⟩
        · rw [hok]
          simp only [exceptStep]
          exact (ih (sizeOf rest) (by omega)).2.1 rest le_rfl ctx
        · right; exact ⟨e, by rw [herr]; rfl⟩
    · intro pl hs ctx
      cases pl with
      | nil => left; exact IterateProps_nil sw (countVisits target) false ctx
      | cons kv rest =>
        obtain ⟨k, v⟩ := kv
        rw [IterateProps_cons]
        have hlt1 : sizeOf v < sizeOf ((k, v) :: rest) := by
          simp only [List.cons.sizeOf_spec, Prod.mk.sizeOf_spec]; omega
        have hlt2 : sizeOf rest < sizeOf ((k, v) :: rest) := by
          simp only [List.cons.sizeOf_spec]; omega
        rcases (ih (sizeOf v) (by omega)).1 v le_rfl ctx with hok | ⟨e, herr⟩
        · rw [hok]
          simp only [exceptStep]
          exact (ih (sizeOf rest) (by omega)).2.2 rest le_rfl ctx
        · right; exact ⟨e, by rw [herr]; rfl⟩


/-- C4: a Weak-tagged schema node is skipped entirely by `Iterate` with
`followWeak = false` — it returns success with the context untouched for
*every* visitor, i.e. without invoking the visitor; consequently, on a
schema graph whose (self-)reference's referent is tagged Weak, the
traversal invokes the visitor on the referenced node zero times — at most
once — for every start schema (the counting visitor `countVisits` never
fires, so a successful traversal returns the context unchanged). That
`Iterate` terminates on every graph is witnessed by the model itself:
referents are never expanded, so `Iterate` is a total function, accepted
by structural-measure recursion. -/
theorem iterate_weak_edge_skip {π : Type} :
    (∀ (σ : Type) (sw : Swagger π) (f : String → SchemaRef → σ → Except GoErr σ)
        (s : SchemaRef) (ctx : σ),
        weakTagged s.description = true →
        SchemaRef.Iterate sw f false s ctx = .ok ctx) ∧
    (∀ (sw : Swagger π) (target : String) (t : SchemaRef) (s : SchemaRef) (ctx c : Nat),
        target ≠ "" →
        lookupKey sw.schemas target = some t →
        weakTagged t.description = true →
        SchemaRef.Iterate sw (countVisits target) false s ctx = .ok c →
        c = ctx) := by
  constructor
  · intro σ sw f s ctx h
    exact iterate_weak_root_skip sw f s ctx h
  · intro sw target t s ctx c ht hlook hw h
    rcases (iterateCountAux sw target t ht hlook hw (sizeOf s)).1 s le_rfl ctx with hok | ⟨e, herr⟩
    · rw [h] at hok
      simpa using hok
    · rw [h] at herr
      simp at herr

set_option maxRecDepth 100000 in
set_option maxHeartbeats 4000000 in
/-- Witness for C4: the Weak-tagged schema `weakSchema` is skipped, and on
the graph `swWeak` — whose schema `"A"` is Weak-tagged and referenced from
`selfRefSchema`'s property — the counting traversal returns the context
unchanged (the referenced node is never visited). -/
theorem iterate_weak_edge_skip_witness :
    SchemaRef.Iterate swWeak (countVisits "A") false weakSchema (37 : Nat) = .ok 37 ∧
    (0 : Nat) = 0 :=
  ⟨(@iterate_weak_edge_skip Unit).1 Nat swWeak (countVisits "A") weakSchema 37 (by decide),
    (@iterate_weak_edge_skip Unit).2 swWeak "A" weakSchema selfRefSchema 0 0
      (by decide) rfl (by decide) rfl⟩

/-! ## C9 — single-parameter resolution -/

theorem mapSet_length_none {α : Type} (l : List (String × α)) (k : String) (v : α)
    (h : lookupKey l k = none) : (mapSet l k v).length = l.length + 1 := by
  induction l with
  | nil => rfl
  | cons hd tl ih =>
    obtain ⟨k0, v0⟩ := hd
    by_cases h0 : k0 = k
    · simp [lookupKey, h0] at h
    · simp only [lookupKey, if_neg h0] at h
      simp [mapSet, h0, ih h]

theorem firstMissing_lookup (ps : List Parameter) (supplied : List (String × JsonValue))
    (p : Parameter) (h : firstMissing ps supplied = some p) :
    lookupKey supplied p.name = none := by
  induction ps with
  | nil => simp [firstMissing] at h
  | cons q rest ih =>
    by_cases hq : (lookupKey supplied q.name).isSome
    · simp only [firstMissing, if_pos hq] at h
      exact ih h
    · simp only [firstMissing, if_neg hq] at h
      cases h
      exact Option.not_isSome_iff_eq_none.mp hq

theorem resolveLoop_spec (env : GenEnv) (t : Test) :
    ∀ (ps : List Parameter) (rs : RStream),
      (firstMissing ps (t.parameters.getD []) = none →
        resolveLoop env t ps rs = .ok (t, rs)) ∧
      (∀ p : Parameter, firstMissing ps (t.parameters.getD []) = some p →
        resolveLoop env t ps rs =
          (match generateParameter env p rs with
           | .error e => .error e
           | .ok (v, rs') =>
             match t.parameters with
             | none => .error (.panicked "assignment to entry in nil map")
             | some m => .ok ({ t with parameters := some (mapSet m p.name v) }, rs'))) := by
  intro ps
  induction ps with
  | nil =>
    intro rs
    refine ⟨fun _ => rfl, fun p h => ?_⟩
    simp [firstMissing] at h
  | cons q rest ih =>
    intro rs
    by_cases hq : (lookupKey (t.parameters.getD []) q.name).isSome
    · refine ⟨?_, ?_⟩
      · intro h
        simp only [firstMissing, if_pos hq] at h
        simp only [resolveLoop, if_pos hq]
        exact (ih rs).1 h
      · intro p h
        simp only [firstMissing, if_pos hq] at h
        simp only [resolveLoop, if_pos hq]
        exact (ih rs).2 p h
    · refine ⟨?_, ?_⟩
      · intro h
        simp only [firstMissing, if_neg hq] at h
        exact Option.noConfusion h
      · intro p h
        simp only [firstMissing, if_neg hq] at h
        cases h
        simp only [resolveLoop, if_neg hq]

unseal generateByType in
/-- C9 counterexample: with the operation registered (GET `/x`) but its
single declared parameter carrying no resolvable type, `ResolveParameters`
returns an Invalid error instead of the success the claim asserts for
every test with a registered operation; and with a generatable boolean
parameter but the test's parameters map nil (the YAML default for a test
step without a `parameters` key), storing the generated value panics —
assignment to entry in nil map — instead of returning success. -/
theorem resolveParameters_counterexample :
    Test.ResolveParameters constEnv swBad tGet [] =
      .error (.err .invalid "Parameter doesn't have type") ∧
    Test.ResolveParameters constEnv swResolve tGet [] =
      .error (.panicked "assignment to entry in nil map") :=
  ⟨rfl, rfl⟩

/-- C9 amended: for every Test whose `(path, method)` operation is
registered, `ResolveParameters` leaves every explicitly supplied parameter
unchanged and adds at most one generated parameter — the first declared
parameter not already supplied. With no missing parameter it returns
success without touching the test; a generation failure propagates as the
returned error; when generation succeeds, the value is stored and success
returned only if the test's parameters map is present — for the nil map
(the YAML default of a test step without a `parameters` key) the store
panics, assignment to entry in nil map. -/
theorem resolveParameters_first_missing (env : GenEnv) (sw : Swagger PathItem)
    (t : Test) (rs : RStream) (op : Operation)
    (hop : getOperationByMethod ((lookupKey sw.paths t.path).getD emptyPathItem)
        t.method = some op) :
    (firstMissing op.parameters (t.parameters.getD []) = none →
      Test.ResolveParameters env sw t rs = .ok (t, rs)) ∧
    (∀ p : Parameter, firstMissing op.parameters (t.parameters.getD []) = some p →
      lookupKey (t.parameters.getD []) p.name = none ∧
      (∀ e, generateParameter env p rs = .error e →
        Test.ResolveParameters env sw t rs = .error e) ∧
      (∀ v rs', generateParameter env p rs = .ok (v, rs') →
        (t.parameters = none →
          Test.ResolveParameters env sw t rs =
            .error (.panicked "assignment to entry in nil map")) ∧
        (∀ m, t.parameters = some m →
          Test.ResolveParameters env sw t rs =
            .ok ({ t with parameters := some (mapSet m p.name v) }, rs') ∧
          lookupKey (mapSet m p.name v) p.name = some v ∧
          (∀ k, k ≠ p.name →
            lookupKey (mapSet m p.name v) k = lookupKey m k) ∧
          (mapSet m p.name v).length = m.length + 1))) := by
  have hrl := resolveLoop_spec env t op.parameters rs
  constructor
  · intro h
    simp only [Test.ResolveParameters, hop]
    exact hrl.1 h
  · intro p h
    have hnone := firstMissing_lookup op.parameters (t.parameters.getD []) p h
    refine ⟨hnone, ?_, ?_⟩
    · intro e he
      simp only [Test.ResolveParameters, hop, hrl.2 p h, he]
    · intro v rs' hv
      constructor
      · intro hnil
        simp only [Test.ResolveParameters, hop, hrl.2 p h, hv, hnil]
      · intro m hm
        have hnone' : lookupKey m p.name = none := by
          rw [hm] at hnone
          simpa using hnone
        refine ⟨?_, lookupKey_mapSet_self _ _ _, ?_, mapSet_length_none _ _ _ hnone'⟩
        · simp only [Test.ResolveParameters, hop, hrl.2 p h, hv, hm]
        · intro k hk
          exact lookupKey_mapSet_ne _ _ _ _ hk

unseal generateByType in
/-- Witness for the amended C9 at a registered GET operation with one
boolean parameter: a present-but-empty parameters map receives the
generated value, and the nil parameters map panics at the store. -/
theorem resolveParameters_first_missing_witness :
    lookupKey (tGetP.parameters.getD []) pBool.name = none ∧
    Test.ResolveParameters constEnv swResolve tGetP [] =
      .ok ({ tGetP with
             parameters := some (mapSet ([] : JsonMap) pBool.name (.vbool true)) }, []) ∧
    (mapSet ([] : JsonMap) pBool.name (.vbool true)).length = ([] : JsonMap).length + 1 ∧
    Test.ResolveParameters constEnv swResolve tGet [] =
      .error (.panicked "assignment to entry in nil map") :=
  have h := resolveParameters_first_missing constEnv swResolve tGetP [] ⟨[pBool]⟩ rfl
  have hg := resolveParameters_first_missing constEnv swResolve tGet [] ⟨[pBool]⟩ rfl
  ⟨(h.2 pBool rfl).1,
    (((h.2 pBool rfl).2.2 (.vbool true) [] rfl).2 [] rfl).1,
    (((h.2 pBool rfl).2.2 (.vbool true) [] rfl).2 [] rfl).2.2.2,
    ((hg.2 pBool rfl).2.2 (.vbool true) [] rfl).1 rfl⟩

/-! ## C1 — round-trip generation/matching -/

theorem getReferredSchema_plain {π : Type} (sw : Swagger π) (s : SchemaRef)
    (h : s.ref = "") : sw.GetReferredSchema s = .ok none := by
  simp [Swagger.GetReferredSchema, h]

theorem tagRecord_plain (s : SchemaRef) (v : JsonValue) (fr : Bool)
    (h : s.description = "") : tagRecord s v fr = .ok [] := by
  simp [tagRecord, h, GetMeqaTag, charsAfter]

theorem parses_plain_vbool {π : Type} (fuel : Nat) (sw : Swagger π)
    (rm : String → String → Bool) (name : String) (s : SchemaRef) (b : Bool) (fr : Bool)
    (h1 : s.ref = "") (h2 : s.allOf = []) (h4 : s.description = "")
    (h3 : strContains s.type "boolean" = true) :
    SchemaRef.Parses (fuel + 1) sw rm name s (.vbool b) fr = .ok [] := by
  simp [SchemaRef.Parses, JsonValue.isNull, getReferredSchema_plain sw s h1, h2, h3,
    tagRecord_plain s _ fr h4]

theorem parses_plain_vint {π : Type} (fuel : Nat) (sw : Swagger π)
    (rm : String → String → Bool) (name : String) (s : SchemaRef) (i : Int) (fr : Bool)
    (h1 : s.ref = "") (h2 : s.allOf = []) (h4 : s.description = "")
    (h3 : strContains s.type "integer" = true ∨ strContains s.type "number" = true)
    (h5 : s.type ≠ "string") (hmn : s.minimum = none) (hmx : s.maximum = none)
    (hp : s.pattern = "") :
    SchemaRef.Parses (fuel + 1) sw rm name s (.vint i) fr = .ok [] := by
  have hv : Validate sw rm s (.vint i) = some true := by
    simp [Validate, h5, hmn, hmx, hp]
  rcases h3 with h3 | h3 <;>
    simp [SchemaRef.Parses, JsonValue.isNull, getReferredSchema_plain sw s h1, h2, h3,
      hv, tagRecord_plain s _ fr h4]

theorem parses_plain_vnum {π : Type} (fuel : Nat) (sw : Swagger π)
    (rm : String → String → Bool) (name : String) (s : SchemaRef) (q : Rat) (fr : Bool)
    (h1 : s.ref = "") (h2 : s.allOf = []) (h4 : s.description = "")
    (h3 : strContains s.type "integer" = true ∨ strContains s.type "number" = true)
    (h5 : s.type ≠ "string") (hmn : s.minimum = none) (hmx : s.maximum = none)
    (hp : s.pattern = "") :
    SchemaRef.Parses (fuel + 1) sw rm name s (.vnum q) fr = .ok [] := by
  have hv : Validate sw rm s (.vnum q) = some true := by
    simp [Validate, h5, hmn, hmx, hp]
  rcases h3 with h3 | h3 <;>
    simp [SchemaRef.Parses, JsonValue.isNull, getReferredSchema_plain sw s h1, h2, h3,
      hv, tagRecord_plain s _ fr h4]

theorem parses_plain_vstr {π : Type} (fuel : Nat) (sw : Swagger π)
    (rm : String → String → Bool) (name : String) (s : SchemaRef) (str : String) (fr : Bool)
    (h1 : s.ref = "") (h2 : s.allOf = []) (h4 : s.description = "")
    (h3 : strContains s.type "string" = true) (h5 : s.type = "string")
    (hminl : s.minLength = 0) (hmaxl : s.maxLength = none) (hp : s.pattern = "") :
    SchemaRef.Parses (fuel + 1) sw rm name s (.vstr str) fr = .ok [] := by
  have hv : Validate sw rm s (.vstr str) = some true := by
    simp [Validate, h5, hminl, hmaxl, hp]
  simp [SchemaRef.Parses, JsonValue.isNull, getReferredSchema_plain sw s h1, h2, h3,
    hv, tagRecord_plain s _ fr h4]

theorem paramToSchema_ref (p : Parameter) : (paramToSchema p).ref = "" := rfl

theorem paramToSchema_type (p : Parameter) : (paramToSchema p).type = p.simple.type := rfl

theorem paramToSchema_allOf (p : Parameter) : (paramToSchema p).allOf = [] := rfl

theorem paramToSchema_description (p : Parameter) : (paramToSchema p).description = "" := rfl

theorem paramToSchema_pattern (p : Parameter) : (paramToSchema p).pattern = p.cv.pattern := rfl

theorem paramToSchema_minimum (p : Parameter) : (paramToSchema p).minimum = p.cv.minimum := rfl

theorem paramToSchema_maximum (p : Parameter) : (paramToSchema p).maximum = p.cv.maximum := rfl

theorem paramToSchema_minLength (p : Parameter) :
    (paramToSchema p).minLength = cvMinLen p.cv := rfl

theorem paramToSchema_maxLength (p : Parameter) :
    (paramToSchema p).maxLength = cvMaxLen p.cv := rfl

theorem drawIntn_ok (n : Int) (hn : 0 < n) (rs : RStream) :
    ∃ k rest, drawIntn n rs = .ok (k, rest) := by
  have h : ¬ n ≤ 0 := by omega
  cases rs with
  | nil => exact ⟨0, [], by simp [drawIntn, h]⟩
  | cons rv rest =>
    cases rv with
    | rint m => exact ⟨m % n.toNat, rest, by simp [drawIntn, h]⟩
    | rfloat q => exact ⟨0, rest, by simp [drawIntn, h]⟩

theorem generateFloat_ok (v : CommonValidations) (rs : RStream) :
    ∃ q rs2, generateFloat v rs = .ok (q, rs2) := by
  rcases hdf : drawFloat rs with ⟨q, rs2⟩
  rcases hmn : v.minimum with _ | m <;> rcases hmx : v.maximum with _ | M <;>
    simp only [generateFloat, hmn, hmx, hdf] <;> split_ifs <;>
    first
      | exact ⟨_, _, rfl⟩
      | simp_all

theorem generateInt_ok (v : CommonValidations) (rs : RStream) :
    ∃ i rs2, generateInt v rs = .ok (i, rs2) := by
  obtain ⟨q, rs2, h⟩ := generateFloat_ok v rs
  refine ⟨(match v.minimum with
           | some m => if goTrunc q ≤ goTrunc m then goTrunc q + 1 else goTrunc q
           | none => goTrunc q), rs2, ?_⟩
  simp only [generateInt, h]

/-- C1 amended: the round-trip holds for the parameter families whose
generated value kind matches the declared type and whose constraints the
generator actually honours — booleans; integers and numbers with no
declared bounds; and plain strings (empty format, no pattern, no length
bounds) — all without an enum, a body schema, or a pattern. In general
the claim is false (see the counterexample: a non-string-typed enum). -/
theorem roundTrip_amended (env : GenEnv) {π : Type} (sw : Swagger π)
    (rm : String → String → Bool) (p : Parameter) (rs rs' : RStream)
    (fuel : Nat) (v : JsonValue)
    (hs : p.schema = none) (he : p.cv.enum = []) (hpat : p.cv.pattern = "")
    (hty : p.simple.type = "boolean" ∨
      ((p.simple.type = "integer" ∨ p.simple.type = "number") ∧
        p.cv.minimum = none ∧ p.cv.maximum = none) ∨
      (p.simple.type = "string" ∧ p.simple.format = "" ∧
        p.cv.minLength = none ∧ p.cv.maxLength = none))
    (hgen : generateParameter env p rs = .ok (v, rs')) :
    SchemaRef.Matches (fuel + 1) sw rm (paramToSchema p) v = true := by
  have hlen0 : p.cv.enum.length = 0 := by rw [he]; rfl
  rcases hty with hb | ⟨hin, hmn, hmx⟩ | ⟨hstr, hfmt, hminl, hmaxl⟩
  · -- boolean
    obtain ⟨k, rest2, hdraw⟩ := drawIntn_ok 2 (by omega) rs
    simp [generateParameter, hs, hlen0, hb, generateByType, generateBool, hdraw,
      (by decide : ¬ ("boolean".length = 0)), (by decide : ¬ ("boolean" = "object")),
      (by decide : ¬ ("boolean" = "array"))] at hgen
    obtain ⟨hv, -⟩ := hgen
    subst hv
    rw [SchemaRef.Matches,
      parses_plain_vbool fuel sw rm "" (paramToSchema p) _ true
        (paramToSchema_ref p) (paramToSchema_allOf p) (paramToSchema_description p)
        (by rw [paramToSchema_type, hb]; decide)]
    rfl
  · -- integer / number without bounds
    rcases hin with hin | hin
    · obtain ⟨i, rs2, hI⟩ := generateInt_ok p.cv rs
      simp [generateParameter, hs, hlen0, hin, generateByType, hI,
        (by decide : ¬ ("integer".length = 0)), (by decide : ¬ ("integer" = "object")),
        (by decide : ¬ ("integer" = "array")),
        (by decide : ¬ ("integer" = "boolean"))] at hgen
      obtain ⟨hv, -⟩ := hgen
      subst hv
      rw [SchemaRef.Matches,
        parses_plain_vint fuel sw rm "" (paramToSchema p) _ true
          (paramToSchema_ref p) (paramToSchema_allOf p) (paramToSchema_description p)
          (Or.inl (by rw [paramToSchema_type, hin]; decide))
          (by rw [paramToSchema_type, hin]; decide)
          ((paramToSchema_minimum p).trans hmn) ((paramToSchema_maximum p).trans hmx)
          ((paramToSchema_pattern p).trans hpat)]
      rfl
    · obtain ⟨q, rs2, hQ⟩ := generateFloat_ok p.cv rs
      simp [generateParameter, hs, hlen0, hin, generateByType, hQ,
        (by decide : ¬ ("number".length = 0)), (by decide : ¬ ("number" = "object")),
        (by decide : ¬ ("number" = "array")),
        (by decide : ¬ ("number" = "boolean")),
        (by decide : ¬ ("number" = "integer"))] at hgen
      obtain ⟨hv, -⟩ := hgen
      subst hv
      rw [SchemaRef.Matches,
        parses_plain_vnum fuel sw rm "" (paramToSchema p) _ true
          (paramToSchema_ref p) (paramToSchema_allOf p) (paramToSchema_description p)
          (Or.inr (by rw [paramToSchema_type, hin]; decide))
          (by rw [paramToSchema_type, hin]; decide)
          ((paramToSchema_minimum p).trans hmn) ((paramToSchema_maximum p).trans hmx)
          ((paramToSchema_pattern p).trans hpat)]
      rfl
  · -- plain string
    rcases hrg : env.reggenGen (p.name ++ "-" ++ "\\d+") ((p.name ++ "-").length + 5)
      with msg | str
    all_goals simp only [String.length_append] at hrg
    · simp [generateParameter, hs, hlen0, hstr, generateByType, generateString,
        hfmt, hpat, hrg,
        (by decide : ¬ ("string".length = 0)), (by decide : ¬ ("string" = "object")),
        (by decide : ¬ ("string" = "array")), (by decide : ¬ ("string" = "boolean")),
        (by decide : ¬ ("string" = "integer")), (by decide : ¬ ("string" = "number")),
        (show "".length = 0 from rfl),
        (by decide : ¬ ("" = "date-time")), (by decide : ¬ ("" = "date"))] at hgen
    · simp [generateParameter, hs, hlen0, hstr, generateByType, generateString,
        hfmt, hpat, hrg,
        (by decide : ¬ ("string".length = 0)), (by decide : ¬ ("string" = "object")),
        (by decide : ¬ ("string" = "array")), (by decide : ¬ ("string" = "boolean")),
        (by decide : ¬ ("string" = "integer")), (by decide : ¬ ("string" = "number")),
        (show "".length = 0 from rfl),
        (by decide : ¬ ("" = "date-time")), (by decide : ¬ ("" = "date"))] at hgen
      obtain ⟨hv, -⟩ := hgen
      subst hv
      rw [SchemaRef.Matches,
        parses_plain_vstr fuel sw rm "" (paramToSchema p) _ true
          (paramToSchema_ref p) (paramToSchema_allOf p) (paramToSchema_description p)
          (by rw [paramToSchema_type, hstr]; decide)
          (by rw [paramToSchema_type]; exact hstr)
          (by rw [paramToSchema_minLength]; simp [cvMinLen, hminl])
          (by rw [paramToSchema_maxLength]; simp [cvMaxLen, hmaxl])
          ((paramToSchema_pattern p).trans hpat)]
      rfl

set_option maxRecDepth 10000 in
/-- C1 counterexample: the integer-typed enum parameter `pEnumInt`
generates the *string* rendering `"1"` of its enum member (`generateByEnum`
always returns `fmt.Sprintf("%v", ...)`), and `Matches` rejects the string
`"1"` against the parameter's integer-typed schema — the round-trip claim
fails. -/
theorem roundTrip_counterexample :
    generateParameter constEnv pEnumInt [.rint 0] = .ok (.vstr "1", []) ∧
    SchemaRef.Matches 5 swEmpty rmTrue (paramToSchema pEnumInt) (.vstr "1") = false :=
  ⟨rfl, rfl⟩

unseal generateByType in
/-- Witness for the amended C1 at a boolean parameter. -/
theorem roundTrip_amended_witness :
    SchemaRef.Matches 1 swEmpty rmTrue (paramToSchema pBool) (.vbool true) = true :=
  roundTrip_amended constEnv swEmpty rmTrue pBool [] [] 0 (.vbool true) rfl rfl rfl
    (Or.inl rfl) rfl

/-! ## C2 — the 3/4 recognized-field threshold -/

theorem exceptOk_exists {ε α : Type} (x : Except ε α) (h : exceptOk x = true) :
    ∃ a, x = .ok a := by
  cases x with
  | ok a => exact ⟨a, rfl⟩
  | error e => simp [exceptOk] at h

theorem parsesFields_count {π : Type} (fuel : Nat) (sw : Swagger π)
    (rm : String → String → Bool) (props : List (String × SchemaRef)) (fr : Bool) :
    ∀ fields : JsonMap, fields.all (fieldParses fuel sw rm props fr) = true →
      ∃ log, SchemaRef.ParsesFields fuel sw rm props fields fr =
        .ok (recognizedCount props fields, log) := by
  intro fields
  induction fields with
  | nil =>
    intro _
    exact ⟨[], by simp [SchemaRef.ParsesFields, parsesFieldsAux, recognizedCount]⟩
  | cons kv rest ih =>
    intro hall
    rw [List.all_cons, Bool.and_eq_true] at hall
    obtain ⟨h1, h2⟩ := hall
    obtain ⟨log, hrec⟩ := ih h2
    simp only [SchemaRef.ParsesFields] at hrec ⊢
    obtain ⟨k, v⟩ := kv
    rcases hlk : lookupKey props k with _ | psch
    · refine ⟨log, ?_⟩
      simp [parsesFieldsAux, hlk, hrec, recognizedCount, List.filter_cons]
    · have h1' : exceptOk (SchemaRef.Parses fuel sw rm "" psch v fr) = true := by
        simpa [fieldParses, hlk] using h1
      obtain ⟨plog, hp⟩ := exceptOk_exists _ h1'
      refine ⟨plog ++ log, ?_⟩
      simp [parsesFieldsAux, hlk, hp, hrec, exceptStep, recognizedCount,
        List.filter_cons]

theorem getProperties_plain {π : Type} (fuel : Nat) (sw : Swagger π) (s : SchemaRef)
    (h1 : s.ref = "") (h2 : s.allOf = []) :
    SchemaRef.GetProperties fuel sw s = s.properties := by
  by_cases hp : s.properties.length > 0
  · cases fuel with
    | zero => simp [SchemaRef.GetProperties, hp]
    | succ fuel => simp [SchemaRef.GetProperties, hp]
  · have hnil : s.properties = [] := List.length_eq_zero.mp (by omega)
    cases fuel with
    | zero => simp [SchemaRef.GetProperties, hp, hnil]
    | succ fuel =>
      simp [SchemaRef.GetProperties, hp, getReferredSchema_plain sw s h1, h2, hnil]

theorem parsesAllOf_count {π : Type} (fuel : Nat) (sw : Swagger π)
    (rm : String → String → Bool) (fields : JsonMap) (fr : Bool) :
    ∀ members : List SchemaRef,
      members.all plainMember = true →
      members.all (memberSubsetParses fuel sw rm fields fr) = true →
      ∃ log, SchemaRef.ParsesAllOf fuel sw rm members fields fr =
        .ok (compositeCount members fields, log) := by
  intro members
  induction members with
  | nil =>
    intro _ _
    exact ⟨[], by simp [SchemaRef.ParsesAllOf, parsesAllOfAux, compositeCount]⟩
  | cons s rest ih =>
    intro hpm hsub
    rw [List.all_cons, Bool.and_eq_true] at hpm hsub
    obtain ⟨hpm1, hpm2⟩ := hpm
    obtain ⟨hs1, hs2⟩ := hsub
    have hplain : s.ref = "" ∧ s.allOf = [] := by
      simpa [plainMember] using hpm1
    have hgp : SchemaRef.GetProperties fuel sw s = s.properties :=
      getProperties_plain fuel sw s hplain.1 hplain.2
    obtain ⟨log, hrec⟩ := ih hpm2 hs2
    simp only [SchemaRef.ParsesAllOf] at hrec ⊢
    by_cases hpe : s.properties.length = 0
    · have hnil : s.properties = [] := List.length_eq_zero.mp hpe
      refine ⟨log, ?_⟩
      simp [parsesAllOfAux, hgp, hpe, hrec, compositeCount, recognizedCount,
        hnil, lookupKey]
    · have hne : s.properties.isEmpty = false := by
        cases hq : s.properties with
        | nil => exact absurd (by rw [hq]; rfl) hpe
        | cons a l => rfl
      have hm : exceptOk (SchemaRef.Parses fuel sw rm "" s
          (.vobj (fields.filter (fun kv => (lookupKey s.properties kv.1).isSome))) fr)
          = true := by
        simpa [memberSubsetParses, hne] using hs1
      obtain ⟨plog, hp⟩ := exceptOk_exists _ hm
      refine ⟨plog ++ log, ?_⟩
      simp [parsesAllOfAux, hgp, hpe, hp, hrec, exceptStep, compositeCount,
        recognizedCount]

theorem parses_object_threshold {π : Type} (fuel : Nat) (sw : Swagger π)
    (rm : String → String → Bool) (name : String) (s : SchemaRef)
    (fields : JsonMap) (fr : Bool)
    (h1 : s.ref = "") (h2 : s.allOf = [])
    (hreq : s.required.all (fun r => (mapKeys fields).contains r) = true)
    (hfields : fields.all (fieldParses fuel sw rm s.properties fr) = true) :
    exceptOk (SchemaRef.Parses (fuel + 1) sw rm name s (.vobj fields) fr) = true ↔
      3 * fields.length ≤ 4 * recognizedCount s.properties fields := by
  have hmiss : firstMissingRequired s.required fields = none := by
    rw [firstMissingRequired, List.find?_eq_none]
    intro r hr
    rw [List.all_eq_true] at hreq
    simpa using hreq r hr
  obtain ⟨log, hpf⟩ := parsesFields_count fuel sw rm s.properties fr fields hfields
  simp only [SchemaRef.ParsesFields] at hpf
  by_cases hth : recognizedCount s.properties fields * 4 < fields.length * 3
  · simp [SchemaRef.Parses, JsonValue.isNull, getReferredSchema_plain sw s h1, h2,
      hmiss, hpf, exceptStep, exceptOk, hth]
    omega
  · simp [SchemaRef.Parses, JsonValue.isNull, getReferredSchema_plain sw s h1, h2,
      hmiss, hpf, exceptStep, exceptOk, hth]
    omega

theorem parses_composite_threshold {π : Type} (fuel : Nat) (sw : Swagger π)
    (rm : String → String → Bool) (name : String) (s : SchemaRef)
    (fields : JsonMap) (fr : Bool)
    (h1 : s.ref = "") (h2 : s.allOf ≠ [])
    (hpm : s.allOf.all plainMember = true)
    (hsub : s.allOf.all (memberSubsetParses fuel sw rm fields fr) = true) :
    exceptOk (SchemaRef.Parses (fuel + 1) sw rm name s (.vobj fields) fr) = true ↔
      3 * fields.length ≤ 4 * compositeCount s.allOf fields := by
  obtain ⟨log, hpa⟩ := parsesAllOf_count fuel sw rm fields fr s.allOf hpm hsub
  simp only [SchemaRef.ParsesAllOf] at hpa
  have hlen : s.allOf.length > 0 := List.length_pos.mpr h2
  by_cases hth : compositeCount s.allOf fields * 4 < fields.length * 3
  · simp [SchemaRef.Parses, JsonValue.isNull, getReferredSchema_plain sw s h1, hlen,
      hpa, exceptStep, exceptOk, hth]
    omega
  · simp [SchemaRef.Parses, JsonValue.isNull, getReferredSchema_plain sw s h1, hlen,
      hpa, exceptStep, exceptOk, hth]
    omega

/-- C2 (amended): for a keyed object with `n` fields, assuming every
recognized field individually parses, the 3/4 threshold governs the outcome
only once the branch's other checks pass. Object kind: if additionally every
schema-required field is present, `Parses` succeeds iff `4k ≥ 3n` where `k`
is the number of recognized fields (without the required-field hypothesis
the claim is false — see the counterexample). Composite: for plain members
each accepting its recognized subset, `Parses` succeeds iff `4k ≥ 3n`, where
`k` counts recognized fields with multiplicity across members, exactly as
the Go member loop accumulates `len(m)`. -/
theorem parses_threshold_amended :
    (∀ (π : Type) (fuel : Nat) (sw : Swagger π) (rm : String → String → Bool)
        (name : String) (s : SchemaRef) (fields : JsonMap) (fr : Bool),
      s.ref = "" → s.allOf = [] →
      s.required.all (fun r => (mapKeys fields).contains r) = true →
      fields.all (fieldParses fuel sw rm s.properties fr) = true →
      (exceptOk (SchemaRef.Parses (fuel + 1) sw rm name s (.vobj fields) fr) = true ↔
        3 * fields.length ≤ 4 * recognizedCount s.properties fields)) ∧
    (∀ (π : Type) (fuel : Nat) (sw : Swagger π) (rm : String → String → Bool)
        (name : String) (s : SchemaRef) (fields : JsonMap) (fr : Bool),
      s.ref = "" → s.allOf ≠ [] →
      s.allOf.all plainMember = true →
      s.allOf.all (memberSubsetParses fuel sw rm fields fr) = true →
      (exceptOk (SchemaRef.Parses (fuel + 1) sw rm name s (.vobj fields) fr) = true ↔
        3 * fields.length ≤ 4 * compositeCount s.allOf fields)) :=
  ⟨fun _ fuel sw rm name s fields fr h1 h2 hreq hfields =>
      parses_object_threshold fuel sw rm name s fields fr h1 h2 hreq hfields,
   fun _ fuel sw rm name s fields fr h1 h2 hpm hsub =>
      parses_composite_threshold fuel sw rm name s fields fr h1 h2 hpm hsub⟩

set_option maxRecDepth 10000 in
/-- C2 counterexample: an object with `n = 1` fields, all `k = 1` of them
recognized and individually parsing, so `4k ≥ 3n` holds — yet `Parses`
fails, because the schema requires a field `z` the object lacks and the
required-field loop runs before the threshold check. The claim's "succeeds
iff `4k ≥ 3n`" is false without a required-fields-present hypothesis. -/
theorem parses_threshold_counterexample :
    recognizedCount [("a", primSchema "string")] [("a", JsonValue.vnull)] = 1 ∧
    fieldParses 1 swEmpty rmTrue [("a", primSchema "string")] true
      ("a", JsonValue.vnull) = true ∧
    SchemaRef.Parses 2 swEmpty rmTrue ""
      (mkObjSchema "object" [("a", primSchema "string")] ["z"])
      (.vobj [("a", JsonValue.vnull)]) true =
      .error (.plain (mismatchMsg "required field not present: z")) :=
  ⟨rfl, rfl, rfl⟩

set_option maxRecDepth 10000 in
/-- Witness for the amended C2 at the `4k = 3n` boundary: four fields of
which three are recognized, for an object-kind schema and for a two-member
composite. -/
theorem parses_threshold_witness :
    (exceptOk (SchemaRef.Parses 2 swEmpty rmTrue ""
        (mkObjSchema "object" objPropsW []) (.vobj objFieldsW) true) = true ↔
      3 * objFieldsW.length ≤ 4 * recognizedCount objPropsW objFieldsW) ∧
    (exceptOk (SchemaRef.Parses 2 swEmpty rmTrue ""
        (mkAllOfSchema "" membersW) (.vobj objFieldsW) true) = true ↔
      3 * objFieldsW.length ≤ 4 * compositeCount membersW objFieldsW) :=
  ⟨parses_threshold_amended.1 Unit 1 swEmpty rmTrue ""
      (mkObjSchema "object" objPropsW []) objFieldsW true rfl rfl rfl (by rfl),
   parses_threshold_amended.2 Unit 1 swEmpty rmTrue ""
      (mkAllOfSchema "" membersW) objFieldsW true rfl
      (by simp [mkAllOfSchema, SchemaRef.allOf, membersW]) (by rfl) (by rfl)⟩
